import Mathlib

/-!
Verification development for the SlackClaw repository
(`src/slackclaw`: `state_store.py`, `decider.py`, `app.py`, `listener.py`,
`reporter.py`, `models.py`, `queue.py`).

The Python code is shallowly embedded: SQL tables become Lean lists of row
structures (primary-key uniqueness is an explicit `Nodup` well-formedness
predicate where a theorem needs it), every mutating store call becomes a pure
function returning the updated table together with the value the Python call
returns, and the orchestrator becomes a small-step transition relation.
-/

/-! ## models.py -/

/-- `models.TaskStatus`. -/
inductive TaskStatus
  | pending
  | waitingApproval
  | running
  | succeeded
  | failed
  | canceled
  | abortedOnRestart
deriving DecidableEq, Repr

/-- `models.TERMINAL_TASK_STATUSES`. -/
def TaskStatus.isTerminal : TaskStatus → Bool
  | .succeeded => true
  | .failed => true
  | .canceled => true
  | .abortedOnRestart => true
  | _ => false

/-- `models.ApprovalStatus`. -/
inductive ApprovalStatus
  | pending
  | approved
  | rejected
deriving DecidableEq, Repr

/-! ## state_store.py: the `tasks` table

A row of the `tasks` table (`task_id` is the PRIMARY KEY; `payload` is the
JSON-encoded TEXT column, kept abstract as a string). -/

structure TaskRow where
  task_id : String
  status : TaskStatus
  created_at : String
  updated_at : String
  payload : String
deriving DecidableEq, Repr

/-- The `tasks` table, as the list of its rows. -/
abbrev TasksTable := List TaskRow

/-- PRIMARY KEY constraint of the `tasks` table: `task_id` values are distinct. -/
def tasksWF (tbl : TasksTable) : Prop := (tbl.map (·.task_id)).Nodup

instance (tbl : TasksTable) : Decidable (tasksWF tbl) :=
  inferInstanceAs (Decidable (List.Nodup _))

/-- `SELECT ... FROM tasks WHERE task_id = ?` (first matching row). -/
def taskLookup (tbl : TasksTable) (id : String) : Option TaskRow :=
  tbl.find? (fun r => r.task_id == id)

/-- Status of the task with the given id, when it exists. -/
def taskStatusOf (tbl : TasksTable) (id : String) : Option TaskStatus :=
  (taskLookup tbl id).map (·.status)

/-- `StateStore.update_task_status`: `UPDATE tasks SET status, updated_at WHERE task_id = ?`
(no status guard). -/
def updateTaskStatus (tbl : TasksTable) (id : String) (st : TaskStatus) (now : String) :
    TasksTable :=
  tbl.map (fun r => if r.task_id == id then { r with status := st, updated_at := now } else r)

/-- Row predicate of the CAS `UPDATE ... WHERE task_id = ? AND status = ?`. -/
def casMatches (id : String) (fromStatus : TaskStatus) (r : TaskRow) : Bool :=
  r.task_id == id && r.status == fromStatus

/-- `StateStore.transition_task_status`: the CAS update. Returns the Python
boolean `cur.rowcount == 1` together with the updated table. -/
def transitionTaskStatus (tbl : TasksTable) (id : String)
    (fromStatus toStatus : TaskStatus) (now : String) : Bool × TasksTable :=
  (tbl.countP (casMatches id fromStatus) == 1,
   tbl.map (fun r =>
     if casMatches id fromStatus r then { r with status := toStatus, updated_at := now } else r))

/-- `StateStore.upsert_task`: `INSERT ... ON CONFLICT(task_id) DO UPDATE SET
status, updated_at, payload` (`created_at` is kept on conflict). -/
def upsertTask (tbl : TasksTable) (id : String) (st : TaskStatus) (payload now : String) :
    TasksTable :=
  if tbl.any (fun r => r.task_id == id) then
    tbl.map (fun r =>
      if r.task_id == id then { r with status := st, updated_at := now, payload := payload }
      else r)
  else
    tbl ++ [⟨id, st, now, now, payload⟩]

/-- `StateStore.mark_running_tasks_aborted`: `UPDATE tasks SET status = aborted_on_restart,
updated_at WHERE status = running`, returning `cur.rowcount`. -/
def markRunningTasksAborted (tbl : TasksTable) (now : String) : Nat × TasksTable :=
  (tbl.countP (fun r => r.status == TaskStatus.running),
   tbl.map (fun r =>
     if r.status == TaskStatus.running then
       { r with status := TaskStatus.abortedOnRestart, updated_at := now }
     else r))

/-- Repeated `transition_task_status(id, PENDING, RUNNING)` calls (one per
timestamp in `nows`), threading the table; returns the list of booleans. -/
def casClaimSeq (tbl : TasksTable) (id : String) : List String → List Bool
  | [] => []
  | now :: rest =>
    let step := transitionTaskStatus tbl id TaskStatus.pending TaskStatus.running now
    step.1 :: casClaimSeq step.2 id rest

/-! ## state_store.py: the `execution_locks` table -/

/-- A row of `execution_locks` (`lock_key` is the PRIMARY KEY). -/
structure LockRow where
  lock_key : String
  task_id : String
  acquired_at : String
deriving DecidableEq, Repr

/-- The `execution_locks` table. -/
abbrev LocksTable := List LockRow

/-- PRIMARY KEY constraint of `execution_locks`. -/
def locksWF (tbl : LocksTable) : Prop := (tbl.map (·.lock_key)).Nodup

instance (tbl : LocksTable) : Decidable (locksWF tbl) :=
  inferInstanceAs (Decidable (List.Nodup _))

/-- `StateStore.acquire_execution_lock`: `INSERT OR IGNORE INTO execution_locks`,
returning `cur.rowcount == 1` (true iff no row with that key existed). -/
def acquireExecutionLock (tbl : LocksTable) (key tid now : String) : Bool × LocksTable :=
  if tbl.any (fun r => r.lock_key == key) then (false, tbl)
  else (true, tbl ++ [⟨key, tid, now⟩])

/-- `StateStore.release_execution_lock`: `DELETE FROM execution_locks WHERE
lock_key = ? AND task_id = ?`. -/
def releaseExecutionLock (tbl : LocksTable) (key tid : String) : LocksTable :=
  tbl.filter (fun r => !(r.lock_key == key && r.task_id == tid))

/-! ## Generic association-table lemmas -/

/-- In a table whose keys are `Nodup`, at most one row carries a given key. -/
theorem countP_key_le_one {α κ : Type} [BEq κ] [LawfulBEq κ]
    (l : List α) (key : α → κ) (k : κ) (h : (l.map key).Nodup) :
    l.countP (fun a => key a == k) ≤ 1 := by
  induction l with
  | nil => simp
  | cons x rest ih =>
    simp only [List.map_cons, List.nodup_cons] at h
    rw [List.countP_cons]
    by_cases hx : key x == k
    · have hzero : rest.countP (fun a => key a == k) = 0 := by
        rw [List.countP_eq_zero]
        intro a ha hak
        exact h.1 (by
          rw [List.mem_map]
          exact ⟨a, ha, by
            have h1 : key a = k := by simpa using hak
            have h2 : key x = k := by simpa using hx
            rw [h1, h2]⟩)
      simp [hzero, hx]
    · simp only [hx]
      simpa using ih h.2

/-- In a table whose keys are `Nodup`, `find?` by key returns any member row
with that key. -/
theorem find?_key_eq {α κ : Type} [BEq κ] [LawfulBEq κ]
    (l : List α) (key : α → κ) (k : κ) (a : α)
    (h : (l.map key).Nodup) (ha : a ∈ l) (hk : key a = k) :
    l.find? (fun x => key x == k) = some a := by
  induction l with
  | nil => simp at ha
  | cons x rest ih =>
    simp only [List.map_cons, List.nodup_cons] at h
    rcases List.mem_cons.mp ha with rfl | hmem
    · simp [List.find?_cons, hk]
    · have hxk : ¬(key x == k) := by
        intro hx
        exact h.1 (by
          rw [List.mem_map]
          exact ⟨a, hmem, by
            have h2 : key x = k := by simpa using hx
            rw [hk, h2]⟩)
      rw [List.find?_cons_of_neg _ (by simpa using hxk)]
      exact ih h.2 hmem

/-- A conditional rewrite maps a list to itself when no element satisfies the
condition. -/
theorem map_ite_eq_self {α : Type} (l : List α) (p : α → Bool) (g : α → α)
    (h : ∀ a ∈ l, p a = false) :
    l.map (fun a => if p a then g a else a) = l := by
  have : ∀ a ∈ l, (fun a => if p a then g a else a) a = id a := by
    intro a ha
    simp [h a ha]
  rw [List.map_congr_left this, List.map_id]

/-! ## C1: the status CAS -/

/-- After one CAS attempt `pending → running`, no row matches
`(task_id = id AND status = pending)` any more. -/
theorem countP_after_claim_eq_zero (tbl : TasksTable) (id now : String) :
    (transitionTaskStatus tbl id TaskStatus.pending TaskStatus.running now).2.countP
      (casMatches id TaskStatus.pending) = 0 := by
  rw [transitionTaskStatus, List.countP_map, List.countP_eq_zero]
  intro r _
  by_cases hr : casMatches id TaskStatus.pending r = true
  · simp only [Function.comp_apply, if_pos hr]
    simp [casMatches]
  · simp only [Function.comp_apply, if_neg hr]
    exact hr

/-- If no row matches the pending-CAS predicate, every further claim attempt
returns false. -/
theorem casClaimSeq_all_false (id : String) (nows : List String) :
    ∀ tbl : TasksTable, tbl.countP (casMatches id TaskStatus.pending) = 0 →
      (casClaimSeq tbl id nows).count true = 0 := by
  induction nows with
  | nil => intro tbl _; simp [casClaimSeq]
  | cons now rest ih =>
    intro tbl h
    rw [casClaimSeq, List.count_cons]
    have hfst : (transitionTaskStatus tbl id TaskStatus.pending TaskStatus.running now).1
        = false := by
      simp [transitionTaskStatus, h]
    rw [ih _ (countP_after_claim_eq_zero tbl id now), hfst]
    simp

/-- C1. `transition_task_status(id, from, to)` returns true iff the task with
that id currently has status `from`; on success the row's status becomes `to`
and `updated_at` is refreshed, on failure the table is unchanged; and any
number of sequential `transition_task_status(id, PENDING, RUNNING)` calls
return true at most once. -/
theorem transitionTaskStatus_spec (tbl : TasksTable) (id : String)
    (fromStatus toStatus : TaskStatus) (now : String) (hwf : tasksWF tbl) :
    ((transitionTaskStatus tbl id fromStatus toStatus now).1 = true ↔
      ∃ r, taskLookup tbl id = some r ∧ r.status = fromStatus) ∧
    (∀ r, taskLookup tbl id = some r → r.status = fromStatus →
      taskLookup (transitionTaskStatus tbl id fromStatus toStatus now).2 id =
        some { r with status := toStatus, updated_at := now }) ∧
    ((transitionTaskStatus tbl id fromStatus toStatus now).1 = false →
      (transitionTaskStatus tbl id fromStatus toStatus now).2 = tbl) ∧
    (∀ nows : List String, (casClaimSeq tbl id nows).count true ≤ 1) := by
  have hle : tbl.countP (casMatches id fromStatus) ≤ 1 := by
    calc tbl.countP (casMatches id fromStatus)
        ≤ tbl.countP (fun r => r.task_id == id) := by
          apply List.countP_mono_left
          intro r _ hr
          simp only [casMatches, Bool.and_eq_true] at hr
          exact hr.1
      _ ≤ 1 := countP_key_le_one tbl (·.task_id) id hwf
  refine ⟨?_, ?_, ?_, ?_⟩
  · constructor
    · intro h
      have hpos : 0 < tbl.countP (casMatches id fromStatus) := by
        simp only [transitionTaskStatus, beq_iff_eq] at h
        omega
      rw [List.countP_pos] at hpos
      obtain ⟨r, hmem, hr⟩ := hpos
      simp only [casMatches, Bool.and_eq_true, beq_iff_eq] at hr
      exact ⟨r, find?_key_eq tbl (·.task_id) id r hwf hmem hr.1, hr.2⟩
    · rintro ⟨r, hfind, hst⟩
      have hmem : r ∈ tbl := List.mem_of_find?_eq_some hfind
      have hid : r.task_id = id := by
        have := List.find?_some hfind
        simpa using this
      have hone : 0 < tbl.countP (casMatches id fromStatus) := by
        rw [List.countP_pos]
        exact ⟨r, hmem, by simp [casMatches, hid, hst]⟩
      simp only [transitionTaskStatus, beq_iff_eq]
      omega
  · intro r hfind hst
    have hmem : r ∈ tbl := List.mem_of_find?_eq_some hfind
    have hid : r.task_id = id := by
      have := List.find?_some hfind
      simpa using this
    have hkeys : ((transitionTaskStatus tbl id fromStatus toStatus now).2.map
        (·.task_id)) = tbl.map (·.task_id) := by
      simp only [transitionTaskStatus, List.map_map]
      apply List.map_congr_left
      intro a _
      by_cases ha : casMatches id fromStatus a <;> simp [ha]
    have hwf2 : tasksWF (transitionTaskStatus tbl id fromStatus toStatus now).2 := by
      rw [tasksWF, hkeys]; exact hwf
    have hmem2 : ({ r with status := toStatus, updated_at := now } : TaskRow)
        ∈ (transitionTaskStatus tbl id fromStatus toStatus now).2 := by
      simp only [transitionTaskStatus]
      rw [List.mem_map]
      exact ⟨r, hmem, by simp [casMatches, hid, hst]⟩
    exact find?_key_eq (transitionTaskStatus tbl id fromStatus toStatus now).2
      (·.task_id) id { r with status := toStatus, updated_at := now } hwf2 hmem2 hid
  · intro h
    have hzero : tbl.countP (casMatches id fromStatus) = 0 := by
      have h2 : ¬(tbl.countP (casMatches id fromStatus) = 1) := by
        intro hc
        simp [transitionTaskStatus, hc] at h
      omega
    simp only [transitionTaskStatus]
    apply map_ite_eq_self
    intro a ha
    rw [List.countP_eq_zero] at hzero
    simpa using hzero a ha
  · intro nows
    cases nows with
    | nil => simp [casClaimSeq]
    | cons now2 rest =>
      rw [casClaimSeq, List.count_cons,
        casClaimSeq_all_false id rest _ (countP_after_claim_eq_zero tbl id now2)]
      split <;> simp

/-- Witness for `transitionTaskStatus_spec` at a concrete one-row table. -/
theorem transitionTaskStatus_spec_witness :
    (transitionTaskStatus [⟨"t1", TaskStatus.pending, "c", "u", "p"⟩]
      "t1" TaskStatus.pending TaskStatus.running "n").1 = true :=
  (transitionTaskStatus_spec [⟨"t1", TaskStatus.pending, "c", "u", "p"⟩]
      "t1" TaskStatus.pending TaskStatus.running "n" (by decide)).1.mpr
    ⟨⟨"t1", TaskStatus.pending, "c", "u", "p"⟩, by decide⟩

/-! ## C2: execution locks -/

/-- C2. `acquire_execution_lock(key, task_id)` succeeds iff no row for `key`
exists (inserting one); while a row for `key` exists every further acquire for
that key fails; releasing deletes a row only when both `lock_key` and
`task_id` match; and both operations keep at most one row per `lock_key`. -/
theorem executionLock_spec (tbl : LocksTable) (key tid now : String) :
    ((acquireExecutionLock tbl key tid now).1 = true ↔ ∀ r ∈ tbl, r.lock_key ≠ key) ∧
    ((acquireExecutionLock tbl key tid now).1 = true →
      (acquireExecutionLock tbl key tid now).2 = tbl ++ [⟨key, tid, now⟩]) ∧
    ((acquireExecutionLock tbl key tid now).1 = false →
      (acquireExecutionLock tbl key tid now).2 = tbl) ∧
    ((∃ r ∈ tbl, r.lock_key = key) →
      ∀ tid2 now2, (acquireExecutionLock tbl key tid2 now2).1 = false) ∧
    (∀ r ∈ tbl, r ∈ releaseExecutionLock tbl key tid ↔
      ¬(r.lock_key = key ∧ r.task_id = tid)) ∧
    (locksWF tbl → locksWF (acquireExecutionLock tbl key tid now).2 ∧
      locksWF (releaseExecutionLock tbl key tid)) := by
  refine ⟨?_, ?_, ?_, ?_, ?_, ?_⟩
  · by_cases hany : tbl.any (fun r => r.lock_key == key) = true
    · rw [acquireExecutionLock, if_pos hany]
      simp only [List.any_eq_true, beq_iff_eq] at hany
      obtain ⟨r, hmem, hk⟩ := hany
      constructor
      · intro hfalse; exact absurd hfalse (by simp)
      · intro hall; exact absurd hk (hall r hmem)
    · rw [acquireExecutionLock, if_neg hany]
      simp only [List.any_eq_true, beq_iff_eq] at hany
      push_neg at hany
      exact ⟨fun _ => hany, fun _ => rfl⟩
  · by_cases hany : tbl.any (fun r => r.lock_key == key) = true
    · rw [acquireExecutionLock, if_pos hany]
      intro hfalse; exact absurd hfalse (by simp)
    · rw [acquireExecutionLock, if_neg hany]
      intro _; rfl
  · by_cases hany : tbl.any (fun r => r.lock_key == key) = true
    · rw [acquireExecutionLock, if_pos hany]
      intro _; rfl
    · rw [acquireExecutionLock, if_neg hany]
      intro htrue; exact absurd htrue (by simp)
  · rintro ⟨r, hmem, hk⟩ tid2 now2
    simp only [acquireExecutionLock]
    have : tbl.any (fun r => r.lock_key == key) = true := by
      rw [List.any_eq_true]
      exact ⟨r, hmem, by simp [hk]⟩
    simp [this]
  · intro r hmem
    rw [releaseExecutionLock, List.mem_filter]
    constructor
    · rintro ⟨_, hcond⟩ ⟨hk, ht⟩
      simp [hk, ht] at hcond
    · intro hcond
      refine ⟨hmem, ?_⟩
      by_cases hk : r.lock_key = key
      · by_cases ht : r.task_id = tid
        · exact absurd ⟨hk, ht⟩ hcond
        · simp [hk, ht]
      · simp [hk]
  · intro hwf
    constructor
    · simp only [acquireExecutionLock]
      split
      · exact hwf
      · rename_i h
        simp only [List.any_eq_true, beq_iff_eq] at h
        push_neg at h
        rw [locksWF, List.map_append, List.nodup_append]
        refine ⟨hwf, by simp, ?_⟩
        intro k hk
        simp only [List.mem_map] at hk
        obtain ⟨r, hmem, rfl⟩ := hk
        simp only [List.map_cons, List.map_nil]
        intro hcon
        rcases List.mem_singleton.mp hcon with h2
        exact h r hmem h2
    · rw [releaseExecutionLock, locksWF]
      exact List.Nodup.sublist (List.Sublist.map _ (List.filter_sublist tbl)) hwf

/-- Witness for `executionLock_spec` at a concrete one-row table. -/
theorem executionLock_spec_witness :
    ∀ tid2 now2, (acquireExecutionLock [⟨"global", "t1", "a"⟩] "global" tid2 now2).1 = false :=
  (executionLock_spec [⟨"global", "t1", "a"⟩] "global" "t2" "b").2.2.2.1
    ⟨⟨"global", "t1", "a"⟩, by decide⟩

/-! ## C7: the restart sweep -/

/-- C7. `mark_running_tasks_aborted` returns the number of running tasks,
rewrites exactly those rows to `aborted_on_restart` (refreshing `updated_at`),
leaves every other row untouched, and afterwards no task is running. -/
theorem markRunningTasksAborted_spec (tbl : TasksTable) (now : String) :
    (markRunningTasksAborted tbl now).1 =
      (tbl.filter (fun r => r.status == TaskStatus.running)).length ∧
    (∀ r ∈ (markRunningTasksAborted tbl now).2, r.status ≠ TaskStatus.running) ∧
    List.Forall₂ (fun r r2 =>
        (r.status = TaskStatus.running →
          r2 = { r with status := TaskStatus.abortedOnRestart, updated_at := now }) ∧
        (r.status ≠ TaskStatus.running → r2 = r))
      tbl (markRunningTasksAborted tbl now).2 := by
  refine ⟨?_, ?_, ?_⟩
  · rw [markRunningTasksAborted, List.countP_eq_length_filter]
  · intro r hmem
    simp only [markRunningTasksAborted, List.mem_map] at hmem
    obtain ⟨a, _, rfl⟩ := hmem
    by_cases ha : a.status = TaskStatus.running <;> simp [ha]
  · rw [markRunningTasksAborted]
    rw [List.forall₂_map_right_iff]
    apply List.forall₂_same.mpr
    intro a _
    constructor
    · intro ha; simp [ha]
    · intro ha; simp [ha]

/-! ## decider.py: `_build_task_id` (SHA-256)

`hashlib.sha256` is embedded as a full SHA-256 implementation over byte lists
(FIPS 180-4), with 32-bit words as `Nat` reduced modulo `2^32`. -/

/-- Truncation to a 32-bit word. -/
def w32 (x : Nat) : Nat := x % 4294967296

/-- 32-bit right rotation. -/
def rotr32 (n x : Nat) : Nat := w32 ((x >>> n) ||| (x <<< (32 - n)))

/-- SHA-256 `Ch`. -/
def shaCh (x y z : Nat) : Nat := (x &&& y) ^^^ ((x ^^^ 4294967295) &&& z)

/-- SHA-256 `Maj`. -/
def shaMaj (x y z : Nat) : Nat := (x &&& y) ^^^ (x &&& z) ^^^ (y &&& z)

/-- SHA-256 `Σ0`. -/
def bigSigma0 (x : Nat) : Nat := rotr32 2 x ^^^ rotr32 13 x ^^^ rotr32 22 x

/-- SHA-256 `Σ1`. -/
def bigSigma1 (x : Nat) : Nat := rotr32 6 x ^^^ rotr32 11 x ^^^ rotr32 25 x

/-- SHA-256 `σ0`. -/
def smallSigma0 (x : Nat) : Nat := rotr32 7 x ^^^ rotr32 18 x ^^^ (x >>> 3)

/-- SHA-256 `σ1`. -/
def smallSigma1 (x : Nat) : Nat := rotr32 17 x ^^^ rotr32 19 x ^^^ (x >>> 10)

/-- SHA-256 round constants. -/
def sha256K : List Nat :=
  [1116352408, 1899447441, 3049323471, 3921009573,
   961987163, 1508970993, 2453635748, 2870763221,
   3624381080, 310598401, 607225278, 1426881987,
   1925078388, 2162078206, 2614888103, 3248222580,
   3835390401, 4022224774, 264347078, 604807628,
   770255983, 1249150122, 1555081692, 1996064986,
   2554220882, 2821834349, 2952996808, 3210313671,
   3336571891, 3584528711, 113926993, 338241895,
   666307205, 773529912, 1294757372, 1396182291,
   1695183700, 1986661051, 2177026350, 2456956037,
   2730485921, 2820302411, 3259730800, 3345764771,
   3516065817, 3600352804, 4094571909, 275423344,
   430227734, 506948616, 659060556, 883997877,
   958139571, 1322822218, 1537002063, 1747873779,
   1955562222, 2024104815, 2227730452, 2361852424,
   2428436474, 2756734187, 3204031479, 3329325298]

/-- The eight working variables / hash state. -/
structure Hash8 where
  a : Nat
  b : Nat
  c : Nat
  d : Nat
  e : Nat
  f : Nat
  g : Nat
  h : Nat
deriving Repr, DecidableEq

/-- SHA-256 initial hash value. -/
def sha256InitH : Hash8 :=
  ⟨1779033703, 3144134277, 1013904242, 2773480762,
   1359893119, 2600822924, 528734635, 1541459225⟩

/-- One step of the message-schedule extension (appends `W[t]`). -/
def scheduleStep (ws : List Nat) : List Nat :=
  let n := ws.length
  ws ++ [w32 (smallSigma1 (ws.getD (n - 2) 0) + ws.getD (n - 7) 0 +
              smallSigma0 (ws.getD (n - 15) 0) + ws.getD (n - 16) 0)]

/-- Extends a 16-word block to the 64-word message schedule. -/
def buildSchedule (block : List Nat) : List Nat :=
  (List.range 48).foldl (fun ws _ => scheduleStep ws) block

/-- One SHA-256 compression round. -/
def sha256Round (st : Hash8) (w k : Nat) : Hash8 :=
  let t1 := w32 (st.h + bigSigma1 st.e + shaCh st.e st.f st.g + k + w)
  let t2 := w32 (bigSigma0 st.a + shaMaj st.a st.b st.c)
  ⟨w32 (t1 + t2), st.a, st.b, st.c, w32 (st.d + t1), st.e, st.f, st.g⟩

/-- Processes one 16-word block. -/
def sha256Block (st : Hash8) (block : List Nat) : Hash8 :=
  let ws := buildSchedule block
  let z := (ws.zip sha256K).foldl (fun s p => sha256Round s p.1 p.2) st
  ⟨w32 (st.a + z.a), w32 (st.b + z.b), w32 (st.c + z.c), w32 (st.d + z.d),
   w32 (st.e + z.e), w32 (st.f + z.f), w32 (st.g + z.g), w32 (st.h + z.h)⟩

/-- Big-endian bytes to 32-bit words (groups of four). -/
def bytesToWords : List Nat → List Nat
  | b0 :: b1 :: b2 :: b3 :: rest =>
    (b0 * 16777216 + b1 * 65536 + b2 * 256 + b3) :: bytesToWords rest
  | _ => []

/-- Splits a word list into 16-word blocks (padding guarantees a multiple of
sixteen words). -/
def chunk16 : List Nat → List (List Nat)
  | a1 :: a2 :: a3 :: a4 :: a5 :: a6 :: a7 :: a8 ::
    a9 :: a10 :: a11 :: a12 :: a13 :: a14 :: a15 :: a16 :: rest =>
    [a1, a2, a3, a4, a5, a6, a7, a8, a9, a10, a11, a12, a13, a14, a15, a16] :: chunk16 rest
  | _ => []

/-- The bit length of the message as eight big-endian bytes. -/
def bigEndian8 (n : Nat) : List Nat :=
  [(n >>> 56) % 256, (n >>> 48) % 256, (n >>> 40) % 256, (n >>> 32) % 256,
   (n >>> 24) % 256, (n >>> 16) % 256, (n >>> 8) % 256, n % 256]

/-- SHA-256 padding: `0x80`, zeros to 56 mod 64, then the 64-bit bit length. -/
def sha256Pad (msg : List Nat) : List Nat :=
  msg ++ [128] ++ List.replicate ((119 - msg.length % 64) % 64) 0 ++
    bigEndian8 (8 * msg.length)

/-- The final hash state over a byte message. -/
def sha256Final (msg : List Nat) : Hash8 :=
  (chunk16 (bytesToWords (sha256Pad msg))).foldl sha256Block sha256InitH

/-- A 32-bit word as four big-endian bytes. -/
def wordBytes (w : Nat) : List Nat :=
  [(w >>> 24) % 256, (w >>> 16) % 256, (w >>> 8) % 256, w % 256]

/-- SHA-256 digest of a byte message, as 32 bytes. -/
def sha256Bytes (msg : List Nat) : List Nat :=
  let z := sha256Final msg
  [z.a, z.b, z.c, z.d, z.e, z.f, z.g, z.h].flatMap wordBytes

/-- Lowercase hex digit. -/
def hexChar (n : Nat) : Char :=
  if n < 10 then Char.ofNat (48 + n) else Char.ofNat (87 + n)

/-- A byte as two lowercase hex digits. -/
def byteToHex (b : Nat) : List Char := [hexChar (b / 16), hexChar (b % 16)]

/-- `hashlib.sha256(raw).hexdigest()`. -/
def sha256HexDigest (msg : List Nat) : String :=
  String.mk ((sha256Bytes msg).flatMap byteToHex)

/-- Python `str.encode("utf-8")` of one character. -/
def utf8EncodeChar (c : Char) : List Nat :=
  let n := c.toNat
  if n < 128 then [n]
  else if n < 2048 then [192 + n / 64, 128 + n % 64]
  else if n < 65536 then [224 + n / 4096, 128 + (n / 64) % 64, 128 + n % 64]
  else [240 + n / 262144, 128 + (n / 4096) % 64, 128 + (n / 64) % 64, 128 + n % 64]

/-- Python `str.encode("utf-8")`. -/
def pyEncodeUtf8 (s : String) : List Nat := s.data.flatMap utf8EncodeChar

/-- `decider._build_task_id`: first 16 hex digits of
`sha256(channel_id + ":" + message_ts + ":" + text)`. -/
def buildTaskId (channel_id message_ts text : String) : String :=
  String.mk ((sha256HexDigest (pyEncodeUtf8
    (channel_id ++ ":" ++ message_ts ++ ":" ++ text))).data.take 16)

set_option maxRecDepth 100000 in
/-- FIPS 180-4 test vector, validating the embedded SHA-256. -/
theorem sha256_testvector_abc :
    sha256HexDigest (pyEncodeUtf8 "abc") =
      "ba7816bf8f01cfea414140de5dae2223b00361a396177a9cb410ff61f20015ad" := by
  rfl

/-- The digest has exactly 32 bytes. -/
theorem sha256Bytes_length (msg : List Nat) : (sha256Bytes msg).length = 32 := by
  simp [sha256Bytes, wordBytes]

/-- Every digest byte is below 256. -/
theorem sha256Bytes_lt (msg : List Nat) : ∀ b ∈ sha256Bytes msg, b < 256 := by
  intro b hb
  simp only [sha256Bytes, List.mem_flatMap] at hb
  obtain ⟨w, _, hw⟩ := hb
  simp only [wordBytes, List.mem_cons, List.not_mem_nil, or_false] at hw
  rcases hw with rfl | rfl | rfl | rfl <;> exact Nat.mod_lt _ (by norm_num)

/-- Hex expansion doubles the length. -/
theorem flatMap_byteToHex_length (bytes : List Nat) :
    (bytes.flatMap byteToHex).length = 2 * bytes.length := by
  induction bytes with
  | nil => simp
  | cons b rest ih => simp [byteToHex, ih]; omega

/-- Digits produced by `hexChar` on inputs below 16 are lowercase hex. -/
theorem hexChar_mem_alphabet : ∀ k < 16, hexChar k ∈ "0123456789abcdef".data := by
  decide

/-- C5. The decider's task id is the first 16 lowercase hex digits of the
SHA-256 of `channel_id + ":" + message_ts + ":" + raw_text`; it has length 16,
consists of lowercase hex digits, and equal input triples yield equal ids. -/
theorem buildTaskId_spec (c ts t : String) :
    buildTaskId c ts t =
      String.mk ((sha256HexDigest (pyEncodeUtf8 (c ++ ":" ++ ts ++ ":" ++ t))).data.take 16) ∧
    (buildTaskId c ts t).length = 16 ∧
    (∀ ch ∈ (buildTaskId c ts t).data, ch ∈ "0123456789abcdef".data) ∧
    (∀ c2 ts2 t2, c = c2 → ts = ts2 → t = t2 → buildTaskId c ts t = buildTaskId c2 ts2 t2) := by
  refine ⟨rfl, ?_, ?_, ?_⟩
  · show (String.mk _).length = 16
    rw [String.length, List.length_take, sha256HexDigest]
    show min 16 (List.length _) = 16
    rw [flatMap_byteToHex_length, sha256Bytes_length]
    norm_num
  · intro ch hch
    have hch2 : ch ∈ (sha256HexDigest (pyEncodeUtf8 (c ++ ":" ++ ts ++ ":" ++ t))).data := by
      exact List.mem_of_mem_take hch
    simp only [sha256HexDigest] at hch2
    rw [List.mem_flatMap] at hch2
    obtain ⟨b, hb, hbhex⟩ := hch2
    have hblt : b < 256 := sha256Bytes_lt _ b hb
    simp only [byteToHex, List.mem_cons, List.not_mem_nil, or_false] at hbhex
    rcases hbhex with rfl | rfl
    · exact hexChar_mem_alphabet (b / 16) (by omega)
    · exact hexChar_mem_alphabet (b % 16) (Nat.mod_lt _ (by norm_num))
  · intro c2 ts2 t2 h1 h2 h3
    rw [h1, h2, h3]

/-- Witness for `buildTaskId_spec` at a concrete triple. -/
theorem buildTaskId_spec_witness : (buildTaskId "C111" "1.1" "!do ship").length = 16 :=
  (buildTaskId_spec "C111" "1.1" "!do ship").2.1

/-! ## reporter.py: `_trim` -/

/-- `reporter._trim`. -/
def pyTrim (text : String) (maxLen : Nat) : String :=
  if text.length ≤ maxLen then text
  else if maxLen ≤ 3 then String.mk (text.data.take maxLen)
  else String.mk (text.data.take (maxLen - 3)) ++ "..."

/-- Python `str.endswith`. -/
def pyEndsWith (s sfx : String) : Bool := decide (sfx.data <:+ s.data)

/-- C9 counterexample: the claimed equivalence "the output ends with `...`
iff the input is longer than the cap" fails at input `"..."` with cap 4 —
the input is returned unchanged yet already ends with `"..."`. -/
theorem pyTrim_claim_counterexample :
    ¬ (∀ (s : String) (c : Nat), 4 ≤ c →
        (pyEndsWith (pyTrim s c) "..." = true ↔ c < s.length)) := by
  intro h
  have h2 := (h "..." 4 (by norm_num)).mp (by decide)
  exact absurd h2 (by decide)

/-- C9 amended. For a cap of at least 4, the trimmed output has length at
most the cap; an input longer than the cap yields an output ending in
`"..."`; an input within the cap is returned unchanged. -/
theorem pyTrim_spec (s : String) (c : Nat) (hc : 4 ≤ c) :
    (pyTrim s c).length ≤ c ∧
    (c < s.length → pyEndsWith (pyTrim s c) "..." = true) ∧
    (s.length ≤ c → pyTrim s c = s) := by
  by_cases hle : s.length ≤ c
  · rw [pyTrim, if_pos hle]
    exact ⟨hle, fun hgt => absurd hgt (by omega), fun _ => rfl⟩
  · have hgt : c < s.length := by omega
    rw [pyTrim, if_neg hle, if_neg (by omega)]
    refine ⟨?_, fun _ => ?_, fun hcon => absurd hcon hle⟩
    · rw [String.length_append]
      have htake : (String.mk (s.data.take (c - 3))).length ≤ c - 3 := by
        show (s.data.take (c - 3)).length ≤ c - 3
        simp [List.length_take]
      have hdots : ("..." : String).length = 3 := by decide
      omega
    · rw [pyEndsWith, decide_eq_true_eq]
      show ("..." : String).data <:+ (String.mk (s.data.take (c - 3))).data ++ ("..." : String).data
      exact List.suffix_append _ _

/-- Witness for `pyTrim_spec` at a concrete input longer than the cap. -/
theorem pyTrim_spec_witness : (pyTrim "hello world" 8).length ≤ 8 :=
  (pyTrim_spec "hello world" 8 (by norm_num)).1

/-! ## Python string primitives

`str.strip` / regex `\s` use the Unicode whitespace set; the embedding covers
the full `str.isspace` code points. Case folding is embedded for ASCII (the
decider only matches the ASCII keywords `shell`, `kimi`, `codex`, `claude`). -/

/-- Python `str.isspace` for one character. -/
def pyIsSpace (c : Char) : Bool :=
  decide (c.toNat = 32 ∨ (9 ≤ c.toNat ∧ c.toNat ≤ 13) ∨ (28 ≤ c.toNat ∧ c.toNat ≤ 31) ∨
    c.toNat = 133 ∨ c.toNat = 160 ∨ c.toNat = 5760 ∨
    (8192 ≤ c.toNat ∧ c.toNat ≤ 8202) ∨ c.toNat = 8232 ∨ c.toNat = 8233 ∨
    c.toNat = 8239 ∨ c.toNat = 8287 ∨ c.toNat = 12288)

/-- Python `str.strip()` on a character list. -/
def pyStripChars (l : List Char) : List Char :=
  ((l.dropWhile pyIsSpace).reverse.dropWhile pyIsSpace).reverse

/-- Python `str.strip()`. -/
def pyStrip (s : String) : String := String.mk (pyStripChars s.data)

/-- Python `str.startswith`. -/
def pyStartsWith (s pfx : String) : Bool := decide (pfx.data <+: s.data)

/-- ASCII lowercasing of one character. -/
def asciiLowerChar (c : Char) : Char :=
  if 65 ≤ c.toNat ∧ c.toNat ≤ 90 then Char.ofNat (c.toNat + 32) else c

/-- Python `str.lower()` (ASCII range). -/
def asciiLower (s : String) : String := String.mk (s.data.map asciiLowerChar)

/-! ## decider.py -/

/-- The `raw` Slack event dict, restricted to the keys the decider and its
callers read. -/
structure RawMessage where
  subtype : Option String
  thread_ts : Option String
deriving DecidableEq, Repr

/-- `models.SlackMessage`. -/
structure SlackMessage where
  channel_id : String
  ts : String
  user : String
  text : String
  raw : RawMessage
deriving DecidableEq, Repr

/-- `models.TaskSpec`, with exactly the fields declared in `models.py`
(notably: no `thread_ts` and no `image_paths` field). -/
structure TaskSpec where
  task_id : String
  channel_id : String
  message_ts : String
  trigger_user : String
  trigger_text : String
  command_text : String
  lock_key : String
deriving DecidableEq, Repr

/-- `decider.Decision`. -/
structure Decision where
  should_run : Bool
  reason : String
  task : Option TaskSpec
deriving DecidableEq, Repr

/-- Decider slice of `config.AppConfig` (`trigger_pfx` embeds the
`trigger_prefix` option). -/
structure AppConfig where
  trigger_mode : String
  trigger_pfx : String
  bot_user_id : String
  approval_mode : String
  shell_allowlist : List String
deriving DecidableEq, Repr

/-- Anchored match of `^<kw>\s+(.+)$` (case-insensitive, Python `re.match`
semantics: `.` does not cross a newline and `$` also matches just before one
single trailing newline), returning capture group 1. -/
def reKeywordRest (kw text : String) : Option String :=
  let chars := text.data
  let n := kw.data.length
  if (chars.take n).map asciiLowerChar = kw.data then
    let rest0 := chars.drop n
    let body := rest0.dropWhile pyIsSpace
    if body.length = rest0.length then none
    else
      let core := if body.getLast? = some '\n' then body.dropLast else body
      if core.isEmpty || core.contains '\n' then none else some (String.mk core)
  else none

/-- `decider._parse_simple_command`. -/
def parseSimpleCommand (text : String) : Option String :=
  let tryKw := fun (kw out : String) =>
    match reKeywordRest kw text with
    | some g =>
      let c := pyStrip g
      if c.isEmpty then none else some (out ++ c)
    | none => none
  (tryKw "shell" "sh:").orElse fun _ =>
    (tryKw "kimi" "kimi:").orElse fun _ =>
      (tryKw "codex" "codex:").orElse fun _ =>
        tryKw "claude" "claude:"

/-- `decider._starts_with_mention`. -/
def startsWithMention (text bot_user_id : String) : Bool × String :=
  let mention := "<@" ++ bot_user_id ++ ">"
  let stripped := pyStrip text
  if pyStartsWith stripped mention then
    (true, pyStrip (String.mk (stripped.data.drop mention.data.length)))
  else (false, "")

/-- Anchored match of `decider._LOCK_PREFIX_RE = ^lock:([^\s]+)\s+(.*)$`,
returning both capture groups. -/
def reLockMatch (s : String) : Option (String × String) :=
  let chars := s.data
  if chars.take 5 = "lock:".data then
    let rest := chars.drop 5
    let name := rest.takeWhile (fun c => !pyIsSpace c)
    if name.isEmpty then none
    else
      let afterName := rest.drop name.length
      let ws := afterName.takeWhile pyIsSpace
      if ws.isEmpty then none
      else
        let rem := afterName.drop ws.length
        let core := if rem.getLast? = some '\n' then rem.dropLast else rem
        if core.contains '\n' then none else some (String.mk name, String.mk core)
  else none

/-- Prefix match of `decider._SHELL_CD_RE = ^\s*sh:\s*cd\s+([^\s;&]+)`,
returning capture group 1. -/
def reShellCd (s : String) : Option String :=
  let c1 := s.data.dropWhile pyIsSpace
  if c1.take 3 = "sh:".data then
    let c2 := (c1.drop 3).dropWhile pyIsSpace
    if c2.take 2 = "cd".data then
      let c3 := c2.drop 2
      let ws := c3.takeWhile pyIsSpace
      if ws.isEmpty then none
      else
        let path := (c3.drop ws.length).takeWhile
          (fun ch => !(pyIsSpace ch || ch == ';' || ch == '&'))
        if path.isEmpty then none else some (String.mk path)
    else none
  else none

/-- `decider._extract_lock_key`. -/
def extractLockKey (command_text : String) : String × String :=
  let cdCase :=
    match reShellCd command_text with
    | some path0 =>
      let path := pyStrip path0
      if !path.isEmpty then ("path:" ++ path, command_text) else ("global", command_text)
    | none => ("global", command_text)
  match reLockMatch command_text with
  | some (name0, rem0) =>
    let lock_name := pyStrip name0
    if !lock_name.isEmpty then ("lock:" ++ lock_name, pyStrip rem0) else cdCase
  | none => cdCase

/-- Shared tail of `decider.decide_message` after the trigger produced
`command_text`. -/
def decideTail (message : SlackMessage) (command_text : String) : Decision :=
  if command_text.isEmpty then ⟨false, "empty command after trigger", none⟩
  else
    let lk := extractLockKey command_text
    if lk.2.isEmpty then ⟨false, "empty command after lock prefix", none⟩
    else
      let task_id := buildTaskId message.channel_id message.ts message.text
      ⟨true, "trigger matched",
        some ⟨task_id, message.channel_id, message.ts, message.user, message.text,
              lk.2, lk.1⟩⟩

/-- `decider.decide_message`. -/
def decideMessage (config : AppConfig) (message : SlackMessage) : Decision :=
  let subtype := message.raw.subtype.getD ""
  if !subtype.isEmpty then ⟨false, "ignored subtype=" ++ subtype, none⟩
  else
    let text := pyStrip message.text
    if text.isEmpty then ⟨false, "ignored empty text", none⟩
    else
      match parseSimpleCommand text with
      | some ct => decideTail message ct
      | none =>
        if config.trigger_mode = "prefix" then
          if !pyStartsWith text config.trigger_pfx then ⟨false, "no prefix trigger", none⟩
          else decideTail message (pyStrip (String.mk (text.data.drop config.trigger_pfx.data.length)))
        else if config.trigger_mode = "mention" then
          let m := startsWithMention text config.bot_user_id
          if !m.1 then ⟨false, "no mention trigger", none⟩
          else decideTail message m.2
        else ⟨false, "unsupported trigger mode", none⟩

/-- C6. Evaluating `decide_message` at the repository's own test input
(`test_decider.py::test_task_uses_thread_root_ts_when_present`: text
`"!do run tests"` in a thread rooted at ts `"1.1"`): the produced task is a
`TaskSpec` carrying only the seven fields declared in `models.py` — there is
no `thread_ts` on it at all, so the claimed `thread_ts` propagation cannot
hold. -/
theorem decideMessage_task_has_no_thread_ts :
    decideMessage ⟨"prefix", "!do", "", "reaction", []⟩
        ⟨"C111", "2.2", "U1", "!do run tests", ⟨none, some "1.1"⟩⟩ =
      ⟨true, "trigger matched",
        some ⟨buildTaskId "C111" "2.2" "!do run tests", "C111", "2.2", "U1",
              "!do run tests", "run tests", "global"⟩⟩ := by
  rfl

/-! ## app.py: shell allowlist check -/

/-- `shlex` whitespace (`' \t\r\n'`). -/
def shlexWhitespace (c : Char) : Bool :=
  c == ' ' || c == '\t' || c == '\r' || c == '\n'

/-- Lexer state of `shlex` (POSIX mode, `whitespace_split=True`). -/
inductive ShlexMode
  | normal
  | inSingle
  | inDouble
deriving DecidableEq, Repr

/-- One `shlex.split` scan step; `none` embeds `ValueError` ("No closing
quotation" / "No escaped character"). Fuel equals the input length, so it
never runs out (each step consumes at least one character). -/
def shlexAux : Nat → List Char → ShlexMode → List Char → Bool → List String →
    Option (List String)
  | _, [], mode, cur, started, acc =>
    match mode with
    | .normal => some (acc ++ if started then [String.mk cur] else [])
    | _ => none
  | 0, _ :: _, _, _, _, _ => none
  | fuel + 1, c :: rest, mode, cur, started, acc =>
    match mode with
    | .inSingle =>
      if c == Char.ofNat 39 then shlexAux fuel rest .normal cur started acc
      else shlexAux fuel rest .inSingle (cur ++ [c]) started acc
    | .inDouble =>
      if c == '"' then shlexAux fuel rest .normal cur started acc
      else if c == '\\' then
        match rest with
        | [] => none
        | d :: rest2 =>
          if d == '"' || d == '\\' then shlexAux fuel rest2 .inDouble (cur ++ [d]) started acc
          else shlexAux fuel rest2 .inDouble (cur ++ [c, d]) started acc
      else shlexAux fuel rest .inDouble (cur ++ [c]) started acc
    | .normal =>
      if shlexWhitespace c then
        if started then shlexAux fuel rest .normal [] false (acc ++ [String.mk cur])
        else shlexAux fuel rest .normal [] false acc
      else if c == Char.ofNat 39 then shlexAux fuel rest .inSingle cur true acc
      else if c == '"' then shlexAux fuel rest .inDouble cur true acc
      else if c == '\\' then
        match rest with
        | [] => none
        | d :: rest2 => shlexAux fuel rest2 .normal (cur ++ [d]) true acc
      else shlexAux fuel rest .normal (cur ++ [c]) true acc

/-- `shlex.split` (POSIX rules); `none` embeds `ValueError`. -/
def pyShlexSplit (s : String) : Option (List String) :=
  shlexAux s.data.length s.data .normal [] false []

/-- Python `str.split()` (the `except ValueError` fallback): split on
whitespace runs, dropping empty tokens. -/
def pyWhitespaceSplitAux : List Char → List Char → List String
  | [], cur => if cur.isEmpty then [] else [String.mk cur]
  | c :: rest, cur =>
    if pyIsSpace c then
      if cur.isEmpty then pyWhitespaceSplitAux rest []
      else String.mk cur :: pyWhitespaceSplitAux rest []
    else pyWhitespaceSplitAux rest (cur ++ [c])

/-- Python `str.split()`. -/
def pyWhitespaceSplit (s : String) : List String := pyWhitespaceSplitAux s.data []

/-- `app._SHELL_SPLIT_RE = (?:&&|\|\||;|\|)` as a splitter. -/
def splitShellSegments : List Char → List Char → List String
  | [], cur => [String.mk cur]
  | '&' :: '&' :: rest, cur => String.mk cur :: splitShellSegments rest []
  | '|' :: '|' :: rest, cur => String.mk cur :: splitShellSegments rest []
  | ';' :: rest, cur => String.mk cur :: splitShellSegments rest []
  | '|' :: rest, cur => String.mk cur :: splitShellSegments rest []
  | c :: rest, cur => splitShellSegments rest (cur ++ [c])

/-- First character class of `app._SHELL_ASSIGNMENT_RE`. -/
def isIdentStart (c : Char) : Bool :=
  (65 ≤ c.toNat && c.toNat ≤ 90) || (97 ≤ c.toNat && c.toNat ≤ 122) || c == '_'

/-- Continuation class of `app._SHELL_ASSIGNMENT_RE`. -/
def isIdentChar (c : Char) : Bool := isIdentStart c || (48 ≤ c.toNat && c.toNat ≤ 57)

/-- Match of `app._SHELL_ASSIGNMENT_RE = ^[A-Za-z_][A-Za-z0-9_]*=.*$`. -/
def isAssignment (tok : String) : Bool :=
  match tok.data with
  | [] => false
  | c :: rest =>
    if isIdentStart c then
      let run := rest.takeWhile isIdentChar
      match rest.drop run.length with
      | '=' :: tail =>
        let core := if tail.getLast? = some '\n' then tail.dropLast else tail
        !core.contains '\n'
      | _ => false
    else false

/-- `pathlib.Path(...).name` (POSIX): last path component, with empty and
`"."` components dropped. -/
def pyPathName (s : String) : String :=
  (((s.splitOn "/").filter (fun c => !(c == "" || c == "."))).getLast?).getD ""

/-- `app._SHELL_WRAPPER_CMDS`. -/
def shellWrapperCmds : List String := ["sudo", "command", "time", "nohup"]

/-- Per-segment body of `app._extract_shell_command_names`: skip leading
assignments, skip one wrapper command (and its assignments), return the
lowercased basename of the first remaining token. -/
def segmentCommandName (segment : String) : Option String :=
  let raw := pyStrip segment
  if raw.isEmpty then none
  else
    let parts := (pyShlexSplit raw).getD (pyWhitespaceSplit raw)
    match parts.dropWhile isAssignment with
    | [] => none
    | cmd :: after =>
      if shellWrapperCmds.contains cmd && !after.isEmpty then
        match after.dropWhile isAssignment with
        | [] => none
        | cmd2 :: _ => some (asciiLower (pyPathName cmd2))
      else some (asciiLower (pyPathName cmd))

/-- `app._extract_shell_command_names`. -/
def extractShellCommandNames (command : String) : List String :=
  (splitShellSegments command.data []).filterMap segmentCommandName

/-- Ordered dedup filter of `app._disallowed_shell_commands`. -/
def disallowedFilter (allow : List String) : List String → List String → List String
  | _, [] => []
  | seen, c :: rest =>
    if allow.contains c || seen.contains c then disallowedFilter allow seen rest
    else c :: disallowedFilter allow (c :: seen) rest

/-- `app._disallowed_shell_commands`. -/
def disallowedShellCommands (command : String) (allowlist : List String) : List String :=
  disallowedFilter (allowlist.map asciiLower) [] (extractShellCommandNames command)

/-! ## app.py: the approval gate of `_process_command_message` -/

/-- The two intake outcomes of `_process_command_message` after image
materialization: post a plan and record `waiting_approval`, or record
`pending` and enqueue. -/
inductive IntakeBranch
  | waitingApproval (reason : String)
  | pendingEnqueue
deriving DecidableEq, Repr

/-- `_process_command_message` lines 333-353: the approval gate. A reason is
set only in reaction mode for an `sh:` command with a non-allowlisted
effective command name; every other task is recorded `pending` and
enqueued. -/
def approvalGate (config : AppConfig) (task : TaskSpec) : IntakeBranch :=
  if config.approval_mode = "reaction" && pyStartsWith task.command_text "sh:" then
    let shell_command := pyStrip (String.mk (task.command_text.data.drop 3))
    let disallowed := disallowedShellCommands shell_command config.shell_allowlist
    if !disallowed.isEmpty then
      .waitingApproval ("non-allowlisted shell command(s): " ++ String.intercalate ", " disallowed)
    else .pendingEnqueue
  else .pendingEnqueue

/-- C4. Evaluating the intake gate at the repository's own approval-flow test
input (`test_approval_flow.py`: message `"!do ship"` under
`approval_mode="reaction"`): the decided command `"ship"` is not a shell
command, and the code records it `pending` and enqueues it instead of the
claimed `waiting_approval`. -/
theorem approvalGate_nonshell_enqueues :
    (decideMessage ⟨"prefix", "!do", "", "reaction", ["echo", "ls"]⟩
        ⟨"C111", "1.1", "U1", "!do ship", ⟨none, none⟩⟩).task =
      some ⟨buildTaskId "C111" "1.1" "!do ship", "C111", "1.1", "U1", "!do ship",
            "ship", "global"⟩ ∧
    approvalGate ⟨"prefix", "!do", "", "reaction", ["echo", "ls"]⟩
        ⟨buildTaskId "C111" "1.1" "!do ship", "C111", "1.1", "U1", "!do ship",
         "ship", "global"⟩ =
      IntakeBranch.pendingEnqueue := by
  exact ⟨rfl, rfl⟩

/-! ## listener.py

JSON values (as produced by `json.loads`) are embedded as an inductive type.
Python's `str(...)` rendering of numbers, arrays and objects is abstracted by
placeholder strings — the listener only renders values that are strings in
Slack's protocol, and no theorem below depends on the rendering. -/

/-- Decoded JSON value. -/
inductive Json where
  | null
  | bool (b : Bool)
  | num (q : ℚ)
  | str (s : String)
  | arr (items : List Json)
  | obj (fields : List (String × Json))

/-- Python `dict.get(k)` (`null` embeds `None`, also on non-dicts). -/
def Json.get (j : Json) (k : String) : Json :=
  match j with
  | .obj fields => ((fields.find? (fun p => p.1 == k)).map Prod.snd).getD .null
  | _ => .null

/-- Python falsiness of a JSON value. -/
def Json.isFalsy : Json → Bool
  | .null => true
  | .bool b => !b
  | .num q => q == 0
  | .str s => s.isEmpty
  | .arr l => l.isEmpty
  | .obj l => l.isEmpty

/-- Python `x or default`. -/
def Json.orDefault (j d : Json) : Json := if j.isFalsy then d else j

/-- Python `str(x)` on a JSON value (non-string renderings abstracted). -/
def Json.toPyStr : Json → String
  | .null => "None"
  | .bool true => "True"
  | .bool false => "False"
  | .str s => s
  | .num _ => "<number>"
  | .arr _ => "<list>"
  | .obj _ => "<dict>"

/-- Python `str(x or "")`. -/
def strOrEmpty (j : Json) : String := if j.isFalsy then "" else j.toPyStr

/-- Python `str(x or "unknown")`. -/
def strOrUnknown (j : Json) : String := if j.isFalsy then "unknown" else j.toPyStr

/-- Strip a character class from both ends. -/
def stripAround (p : Char → Bool) (l : List Char) : List Char :=
  ((l.dropWhile p).reverse.dropWhile p).reverse

/-- Normalized message as built by the listener (`models.SlackMessage` with
the raw event dict attached). -/
structure SlackMessageJ where
  channel_id : String
  ts : String
  user : String
  text : String
  raw : Json

/-- Normalized reaction as built by the listener (`models.SlackReaction`). -/
structure SlackReactionJ where
  channel_id : String
  message_ts : String
  reaction : String
  user : String
  raw : Json

/-- `listener.PollResult`. -/
structure PollResult where
  messages : List SlackMessageJ
  newest_ts : Option String

/-- ASCII digit test. -/
def isDigitChar (c : Char) : Bool := 48 ≤ c.toNat && c.toNat ≤ 57

/-- Digit run as a natural number. -/
def digitsToNat (l : List Char) : Nat :=
  l.foldl (fun acc c => acc * 10 + (c.toNat - 48)) 0

/-- The value domain of Python `float()` results as the listener's sort keys
use them: NaN, the two infinities, and finite values. A finite value is the
exact rational `num / 10 ^ exp10`, kept as an unnormalized pair so that
comparisons are pure integer arithmetic; IEEE rounding and overflow to
infinity are monotone collapses of this domain and do not affect
order-related statements. -/
inductive PyFloat where
  | nan
  | negInf
  | finite (num : Int) (exp10 : Nat)
  | posInf
deriving DecidableEq, Repr

/-- NaN test. -/
def PyFloat.isNan : PyFloat → Bool
  | PyFloat.nan => true
  | _ => false

/-- Python `<` on floats: every comparison involving NaN is false; finite
values compare by cross-multiplication with the positive denominators. -/
def pyFloatLt : PyFloat → PyFloat → Bool
  | PyFloat.nan, _ => false
  | _, PyFloat.nan => false
  | PyFloat.negInf, PyFloat.negInf => false
  | PyFloat.negInf, _ => true
  | _, PyFloat.negInf => false
  | PyFloat.finite a ae, PyFloat.finite b be =>
    decide (a * (10 : Int) ^ be < b * (10 : Int) ^ ae)
  | PyFloat.finite _ _, PyFloat.posInf => true
  | PyFloat.posInf, _ => false

/-- Python `<=` on floats: every comparison involving NaN is false. -/
def pyFloatLe : PyFloat → PyFloat → Bool
  | PyFloat.nan, _ => false
  | _, PyFloat.nan => false
  | PyFloat.negInf, _ => true
  | _, PyFloat.negInf => false
  | PyFloat.finite a ae, PyFloat.finite b be =>
    decide (a * (10 : Int) ^ be ≤ b * (10 : Int) ^ ae)
  | _, PyFloat.posInf => true
  | PyFloat.posInf, _ => false

/-- Scanner for digit runs joined by single underscores (Python
numeric-literal underscores must sit between two digits). The flag records
that the previous character was a digit, so one underscore may follow. -/
def takeDigitsUAux : Bool → List Char → List Char × List Char
  | _, [] => ([], [])
  | afterDigit, c :: rest =>
    if isDigitChar c then
      let p := takeDigitsUAux true rest
      (c :: p.1, p.2)
    else if afterDigit && c == '_' then
      match rest with
      | d :: rest2 =>
        if isDigitChar d then
          let p := takeDigitsUAux true rest2
          (d :: p.1, p.2)
        else ([], c :: rest)
      | [] => ([], [c])
    else ([], c :: rest)

/-- Digit runs joined by single underscores; returns the digits and the
unconsumed rest. -/
def takeDigitsU (l : List Char) : List Char × List Char := takeDigitsUAux false l

/-- Python `float(s)`: optional sign after stripping whitespace, then
case-insensitive `nan` / `inf` / `infinity`, or a decimal literal with
underscores and an optional exponent. `none` embeds `ValueError`. -/
def parsePyFloat (s : String) : Option PyFloat :=
  let l0 := pyStripChars s.data
  let signAndRest : Bool × List Char :=
    match l0 with
    | '+' :: rest => (false, rest)
    | '-' :: rest => (true, rest)
    | _ => (false, l0)
  let neg := signAndRest.1
  let l1 := signAndRest.2
  let lw := l1.map asciiLowerChar
  if lw = "nan".data then some PyFloat.nan
  else if lw = "inf".data || lw = "infinity".data then
    some (if neg then PyFloat.negInf else PyFloat.posInf)
  else
    let ip := takeDigitsU l1
    let intPart := ip.1
    let fp : List Char × List Char :=
      match ip.2 with
      | '.' :: rest => takeDigitsU rest
      | _ => ([], ip.2)
    let fracPart := fp.1
    let l3 := fp.2
    if intPart.isEmpty && fracPart.isEmpty then none
    else
      let m : Int := (if neg then -1 else 1) * (digitsToNat (intPart ++ fracPart) : Int)
      let k := fracPart.length
      match l3 with
      | [] => some (PyFloat.finite m k)
      | e :: rest =>
        if e == 'e' || e == 'E' then
          let er : Int × List Char :=
            match rest with
            | '+' :: r => (1, r)
            | '-' :: r => (-1, r)
            | _ => (1, rest)
          let ed := takeDigitsU er.2
          if ed.1.isEmpty || !ed.2.isEmpty then none
          else
            let t : Int := er.1 * (digitsToNat ed.1 : Int) - (k : Int)
            if 0 ≤ t then some (PyFloat.finite (m * (10 : Int) ^ t.toNat) 0)
            else some (PyFloat.finite m (-t).toNat)
        else none

/-- `listener._ts_as_float` (`ValueError` falls back to `0.0`). -/
def tsAsFloat (ts : String) : PyFloat := (parsePyFloat ts).getD (PyFloat.finite 0 0)

/-- The normalization loop of `SlackChannelListener.poll` over the fetched
raw messages (pagination and HTTP are I/O and enter as the merged list). -/
def pollNormalize (channel_id : String) (fetched : List Json) : List SlackMessageJ :=
  fetched.filterMap (fun raw =>
    match raw with
    | .obj _ =>
      let ts := strOrEmpty (raw.get "ts")
      if ts.isEmpty then none
      else
        some ⟨channel_id, ts,
          strOrUnknown ((raw.get "user").orDefault (raw.get "bot_id")),
          strOrEmpty (raw.get "text"), raw⟩
    | _ => none)

/-- The sort key of `poll` (`key=lambda m: _ts_as_float(m.ts)`). -/
def pollKey (m : SlackMessageJ) : PyFloat := tsAsFloat m.ts

/-- Stable insert driven by the key's `<`, as Python's sort compares. -/
def pySortInsert (x : SlackMessageJ) : List SlackMessageJ → List SlackMessageJ
  | [] => [x]
  | y :: ys =>
    if pyFloatLt (pollKey y) (pollKey x) then y :: pySortInsert x ys else x :: y :: ys

/-- Python `list.sort(key=_ts_as_float)` as a stable sort driven only by the
key's `<` (exactly the comparisons CPython's timsort makes). For keys that
admit a strict weak order — every batch without a NaN key — all stable sorts
agree, so this equals the code's output; with a NaN key CPython's output is
algorithm-dependent, and the two agree on the two-element batch used
below. -/
def pyStableSort : List SlackMessageJ → List SlackMessageJ
  | [] => []
  | x :: xs => pySortInsert x (pyStableSort xs)

/-- Sorted output messages of `SlackChannelListener.poll`. -/
def pollMessages (channel_id : String) (fetched : List Json) : List SlackMessageJ :=
  pyStableSort (pollNormalize channel_id fetched)

/-- `SlackChannelListener.poll` result. -/
def pollResult (channel_id : String) (fetched : List Json) : PollResult :=
  let msgs := pollMessages channel_id fetched
  ⟨msgs, (msgs.getLast?).map (·.ts)⟩

/-- `<` implies `<=` on Python floats. -/
theorem pyFloatLt_le (a b : PyFloat) (h : pyFloatLt a b = true) : pyFloatLe a b = true := by
  cases a <;> cases b <;> simp_all [pyFloatLt, pyFloatLe]
  exact le_of_lt h

/-- On non-NaN Python floats, a failed `<` gives the reverse `<=`. -/
theorem pyFloat_le_of_not_lt (a b : PyFloat) (ha : a.isNan = false) (hb : b.isNan = false)
    (h : pyFloatLt b a = false) : pyFloatLe a b = true := by
  cases a <;> cases b <;> simp_all [pyFloatLt, pyFloatLe, PyFloat.isNan]

/-- `<=` on Python floats is transitive (vacuously so through NaN). -/
theorem pyFloatLe_trans (a b c : PyFloat) (h1 : pyFloatLe a b = true)
    (h2 : pyFloatLe b c = true) : pyFloatLe a c = true := by
  cases a <;> cases b <;> cases c <;> simp_all [pyFloatLe]
  rename_i a1 e1 a2 e2 a3 e3
  have p2 : (0 : Int) < 10 ^ e2 := pow_pos (by norm_num) e2
  have h1m := mul_le_mul_of_nonneg_right h1 (pow_nonneg (by norm_num : (0 : Int) ≤ 10) e3)
  have h2m := mul_le_mul_of_nonneg_right h2 (pow_nonneg (by norm_num : (0 : Int) ≤ 10) e1)
  have key : a1 * 10 ^ e3 * 10 ^ e2 ≤ a3 * 10 ^ e1 * 10 ^ e2 := by nlinarith [h1m, h2m]
  exact le_of_mul_le_mul_right key p2

/-- Membership through the stable insert. -/
theorem mem_pySortInsert (x z : SlackMessageJ) (l : List SlackMessageJ) :
    z ∈ pySortInsert x l ↔ z = x ∨ z ∈ l := by
  induction l with
  | nil => simp [pySortInsert]
  | cons y ys ih =>
    rw [pySortInsert]
    split
    · simp only [List.mem_cons, ih]
      tauto
    · simp [List.mem_cons]

/-- Membership through the stable sort. -/
theorem mem_pyStableSort (z : SlackMessageJ) (l : List SlackMessageJ) :
    z ∈ pyStableSort l ↔ z ∈ l := by
  induction l with
  | nil => simp [pyStableSort]
  | cons x xs ih =>
    rw [pyStableSort, mem_pySortInsert]
    simp [ih]

/-- Inserting a non-NaN key into a `<=`-sorted list of non-NaN keys keeps it
sorted. -/
theorem pySortInsert_pairwise (x : SlackMessageJ) (l : List SlackMessageJ)
    (hx : (pollKey x).isNan = false) (hl : ∀ y ∈ l, (pollKey y).isNan = false)
    (hp : l.Pairwise (fun a b => pyFloatLe (pollKey a) (pollKey b) = true)) :
    (pySortInsert x l).Pairwise (fun a b => pyFloatLe (pollKey a) (pollKey b) = true) := by
  induction l with
  | nil => simp [pySortInsert]
  | cons y ys ih =>
    rw [List.pairwise_cons] at hp
    obtain ⟨hy_all, hys⟩ := hp
    rw [pySortInsert]
    split
    · rename_i hlt
      rw [List.pairwise_cons]
      constructor
      · intro z hz
        rcases (mem_pySortInsert x z ys).mp hz with rfl | hzys
        · exact pyFloatLt_le _ _ hlt
        · exact hy_all z hzys
      · exact ih (fun y2 hy2 => hl y2 (List.mem_cons_of_mem y hy2)) hys
    · rename_i hnlt
      have hxy : pyFloatLe (pollKey x) (pollKey y) = true :=
        pyFloat_le_of_not_lt _ _ hx (hl y (List.mem_cons_self y ys)) (by simpa using hnlt)
      rw [List.pairwise_cons]
      constructor
      · intro z hz
        rcases List.mem_cons.mp hz with rfl | hzys
        · exact hxy
        · exact pyFloatLe_trans _ _ _ hxy (hy_all z hzys)
      · exact List.pairwise_cons.mpr ⟨hy_all, hys⟩

/-- The stable sort of non-NaN keys is `<=`-sorted. -/
theorem pyStableSort_pairwise (l : List SlackMessageJ)
    (hl : ∀ y ∈ l, (pollKey y).isNan = false) :
    (pyStableSort l).Pairwise (fun a b => pyFloatLe (pollKey a) (pollKey b) = true) := by
  induction l with
  | nil => simp [pyStableSort]
  | cons x xs ih =>
    rw [pyStableSort]
    apply pySortInsert_pairwise
    · exact hl x (List.mem_cons_self x xs)
    · intro y hy
      exact hl y (List.mem_cons_of_mem x ((mem_pyStableSort y xs).mp hy))
    · exact ih fun y hy => hl y (List.mem_cons_of_mem x hy)

/-- A fetched batch whose first message carries `ts = "nan"`: Python's
`float("nan")` parses, and every float comparison with NaN is false. -/
def demoNanFetched : List Json :=
  [Json.obj [("ts", Json.str "nan")], Json.obj [("ts", Json.str "1.0")]]

/-- C8 counterexample: at the batch with `ts` values `"nan"` and `"1.0"`,
the poll output (`["nan", "1.0"]`, as the code's sort leaves it) is not
non-decreasing by `ts` interpreted as a float — both comparisons with the
NaN key are false — refuting the claim's sortedness as universally
stated. -/
theorem pollSorted_claim_counterexample :
    ¬ ((pollResult "C1" demoNanFetched).messages.Pairwise
        (fun a b => pyFloatLe (tsAsFloat a.ts) (tsAsFloat b.ts) = true)) := by
  intro hp
  have hm : (pollResult "C1" demoNanFetched).messages =
      [⟨"C1", "nan", "unknown", "", Json.obj [("ts", Json.str "nan")]⟩,
       ⟨"C1", "1.0", "unknown", "", Json.obj [("ts", Json.str "1.0")]⟩] := rfl
  rw [hm] at hp
  obtain ⟨hle, _⟩ := List.pairwise_cons.mp hp
  have h2 := hle _ (List.mem_singleton.mpr rfl)
  exact absurd h2 (by decide)

/-- C8 amended. Whenever no returned message's `ts` parses to NaN, the poll
output is sorted non-decreasingly by `ts` interpreted as a float;
unconditionally, `newest_ts` is the `ts` of the last message of that order
and is `none` exactly when the message list is empty. -/
theorem pollResult_spec (channel_id : String) (fetched : List Json)
    (hnonan : ∀ m ∈ (pollResult channel_id fetched).messages,
      (tsAsFloat m.ts).isNan = false) :
    (pollResult channel_id fetched).messages.Pairwise
      (fun a b => pyFloatLe (tsAsFloat a.ts) (tsAsFloat b.ts) = true) ∧
    (pollResult channel_id fetched).newest_ts =
      ((pollResult channel_id fetched).messages.getLast?).map (·.ts) ∧
    ((pollResult channel_id fetched).newest_ts = none ↔
      (pollResult channel_id fetched).messages = []) := by
  refine ⟨?_, rfl, ?_⟩
  · apply pyStableSort_pairwise
    intro y hy
    exact hnonan y ((mem_pyStableSort y _).mpr hy)
  · show ((pollMessages channel_id fetched).getLast?).map (·.ts) = none ↔
      pollMessages channel_id fetched = []
    rw [Option.map_eq_none']
    exact List.getLast?_eq_none_iff

/-- A NaN-free fetched batch for the witness. -/
def demoPollFetched : List Json :=
  [Json.obj [("ts", Json.str "2.0")], Json.obj [("ts", Json.str "1.0")]]

/-- Witness for `pollResult_spec` at a concrete NaN-free batch. -/
theorem pollResult_spec_witness :
    (pollResult "C1" demoPollFetched).messages.Pairwise
      (fun a b => pyFloatLe (tsAsFloat a.ts) (tsAsFloat b.ts) = true) :=
  (pollResult_spec "C1" demoPollFetched (by
    have hmm : (pollResult "C1" demoPollFetched).messages =
        [⟨"C1", "1.0", "unknown", "", Json.obj [("ts", Json.str "1.0")]⟩,
         ⟨"C1", "2.0", "unknown", "", Json.obj [("ts", Json.str "2.0")]⟩] := rfl
    rw [hmm]
    intro m hm
    rcases List.mem_cons.mp hm with rfl | hm2
    · rfl
    · rcases List.mem_singleton.mp hm2 with rfl
      rfl)).1

/-! ## listener.py: socket mode -/

/-- `listener.SocketEventBatch`. -/
structure SocketEventBatch where
  messages : List SlackMessageJ
  reactions : List SlackReactionJ

/-- `SlackSocketModeListener._parse_message_event`. -/
def parseMessageEvent (command_channel_id : String) (event : Json) : Option SlackMessageJ :=
  let channel_id := strOrEmpty (event.get "channel")
  if channel_id ≠ command_channel_id then none
  else
    let ts := strOrEmpty (event.get "ts")
    if ts.isEmpty then none
    else
      some ⟨channel_id, ts,
        strOrUnknown ((event.get "user").orDefault (event.get "bot_id")),
        strOrEmpty (event.get "text"), event⟩

/-- `SlackSocketModeListener._parse_reaction_event`. -/
def parseReactionEvent (command_channel_id : String) (event : Json) : Option SlackReactionJ :=
  let item := (event.get "item").orDefault (.obj [])
  match item with
  | .obj _ =>
    if strOrEmpty (item.get "type") ≠ "message" then none
    else
      let channel_id := strOrEmpty (item.get "channel")
      if channel_id ≠ command_channel_id then none
      else
        let ts := strOrEmpty (item.get "ts")
        let reaction := String.mk
          (stripAround (· == ':') (pyStripChars (strOrEmpty (event.get "reaction")).data))
        if ts.isEmpty || reaction.isEmpty then none
        else some ⟨channel_id, ts, reaction, strOrUnknown (event.get "user"), event⟩
  | _ => none

/-- The envelope-dispatch part of `SlackSocketModeListener.receive` (after
`json.loads`; the timeout, empty-frame, undecodable-frame, ack-failure and
`disconnect` paths all return the empty batch, and the ack send is I/O). -/
def processEnvelope (command_channel_id : String) (envelope : Json) : SocketEventBatch :=
  match envelope with
  | .obj _ =>
    if strOrEmpty (envelope.get "type") = "disconnect" then ⟨[], []⟩
    else
      let payload := (envelope.get "payload").orDefault (.obj [])
      match payload with
      | .obj _ =>
        let event := (payload.get "event").orDefault (.obj [])
        match event with
        | .obj _ =>
          let event_type := strOrEmpty (event.get "type")
          if event_type = "message" then
            match parseMessageEvent command_channel_id event with
            | none => ⟨[], []⟩
            | some m => ⟨[m], []⟩
          else if event_type = "reaction_added" then
            match parseReactionEvent command_channel_id event with
            | none => ⟨[], []⟩
            | some r => ⟨[], [r]⟩
          else ⟨[], []⟩
        | _ => ⟨[], []⟩
      | _ => ⟨[], []⟩
  | _ => ⟨[], []⟩

/-- A parsed message always carries the command channel. -/
theorem parseMessageEvent_channel (c : String) (event : Json) (m : SlackMessageJ)
    (h : parseMessageEvent c event = some m) : m.channel_id = c := by
  simp only [parseMessageEvent] at h
  split at h
  · cases h
  · split at h
    · cases h
    · rename_i hne _
      cases h
      simpa using hne

/-- A parsed reaction always carries the command channel. -/
theorem parseReactionEvent_channel (c : String) (event : Json) (r : SlackReactionJ)
    (h : parseReactionEvent c event = some r) : r.channel_id = c := by
  simp only [parseReactionEvent] at h
  split at h
  · split at h
    · cases h
    · split at h
      · cases h
      · split at h
        · cases h
        · rename_i hchan _
          cases h
          simpa using hchan
  · cases h

/-- C10. Each socket-mode receive emits at most one event in total (one
message, or one reaction, or nothing — never both kinds), and any emitted
message or reaction carries exactly the configured command channel. -/
theorem processEnvelope_spec (c : String) (envelope : Json) :
    (processEnvelope c envelope).messages.length +
      (processEnvelope c envelope).reactions.length ≤ 1 ∧
    (∀ m ∈ (processEnvelope c envelope).messages, m.channel_id = c) ∧
    (∀ r ∈ (processEnvelope c envelope).reactions, r.channel_id = c) := by
  simp only [processEnvelope]
  split
  · split
    · simp
    · split
      · split
        · split
          · split
            · simp
            · rename_i m hm
              refine ⟨by simp, ?_, by simp⟩
              intro m2 hm2
              rw [List.mem_singleton] at hm2
              subst hm2
              exact parseMessageEvent_channel c _ _ hm
          · split
            · split
              · simp
              · rename_i r hr
                refine ⟨by simp, by simp, ?_⟩
                intro r2 hr2
                rw [List.mem_singleton] at hr2
                subst hr2
                exact parseReactionEvent_channel c _ _ hr
            · simp
        · simp
      · simp
  · simp

/-! ## state_store.py: the `task_approvals` table -/

/-- A row of `task_approvals` (`task_id` is the PRIMARY KEY; `created_at` /
`updated_at` are not tracked by any claim about approvals). -/
structure ApprovalRow where
  task_id : String
  channel_id : String
  source_message_ts : String
  approval_message_ts : String
  approve_reaction : String
  reject_reaction : String
  status : ApprovalStatus
  decided_by : String
  decision_reaction : String
deriving DecidableEq, Repr

/-- The `task_approvals` table. -/
abbrev ApprovalsTable := List ApprovalRow

/-- `StateStore.upsert_task_approval`: insert or replace by `task_id`. -/
def upsertTaskApproval (tbl : ApprovalsTable) (row : ApprovalRow) : ApprovalsTable :=
  if tbl.any (fun a => a.task_id == row.task_id) then
    tbl.map (fun a => if a.task_id == row.task_id then row else a)
  else tbl ++ [row]

/-- `StateStore.resolve_task_approval`: CAS `UPDATE ... WHERE task_id = ? AND
status = pending`, returning `cur.rowcount == 1`. -/
def resolveTaskApproval (tbl : ApprovalsTable) (task_id : String) (st : ApprovalStatus)
    (decided_by decision_reaction : String) : Bool × ApprovalsTable :=
  (tbl.countP (fun a => a.task_id == task_id && a.status == ApprovalStatus.pending) == 1,
   tbl.map (fun a =>
     if a.task_id == task_id && a.status == ApprovalStatus.pending then
       { a with status := st, decided_by := decided_by, decision_reaction := decision_reaction }
     else a))

/-- Lookup predicate of `StateStore.get_pending_approval_for_message`. -/
def pendingApprovalMatches (channel_id message_ts : String) (a : ApprovalRow) : Bool :=
  a.channel_id == channel_id && a.status == ApprovalStatus.pending &&
    (a.source_message_ts == message_ts || a.approval_message_ts == message_ts)

/-! ## app.py: orchestrator as a small-step system

One orchestrator process drives intake, reaction handling, queue drain and
task finishing against the store; a crash loses the in-memory queue and
in-flight set, and the startup sweep (`mark_running_tasks_aborted`) runs when
the process holds nothing in flight. Each `Step` constructor is one atomic
code path of `app.py`; data the decider, Slack, or the executor produce
enters as universally quantified parameters, which over-approximates the
code's behaviours. -/

/-- The queue entry (`TaskSpec` restricted to the fields the drain loop
uses). -/
structure QTask where
  task_id : String
  lock_key : String
deriving DecidableEq, Repr

/-- `TaskQueue.enqueue`: FIFO append with task-id dedup. -/
def qEnqueue (queue : List QTask) (q : QTask) : List QTask :=
  if queue.any (fun x => x.task_id == q.task_id) then queue else queue ++ [q]

/-- The orchestrator-visible system state: store tables plus the in-memory
queue, the in-flight set, and the processed-message dedup set. -/
structure SysState where
  tasks : TasksTable
  approvals : ApprovalsTable
  locks : LocksTable
  processed : List (String × String)
  queue : List QTask
  inflight : List QTask
deriving DecidableEq, Repr

/-- Fresh system state (empty store, empty memory). -/
def initState : SysState := ⟨[], [], [], [], [], []⟩

/-- Statuses `TaskExecutor.execute` (and the worker-failure fallbacks in
`_drain_queue`) can report. -/
def execResultStatuses : List TaskStatus :=
  [TaskStatus.succeeded, TaskStatus.failed, TaskStatus.canceled]

/-- One atomic orchestrator step (`app.py`). -/
inductive Step : SysState → SysState → Prop where
  /-- `_process_command_message` when the message is deduplicated away, the
  decider ignores it, or `task_exists` already holds: only the
  processed-message set grows. -/
  | intakeIgnore (s : SysState) (ch ts : String)
      (hproc : s.processed.contains (ch, ts) = false) :
      Step s { s with processed := s.processed ++ [(ch, ts)] }
  /-- `_process_command_message` when `_materialize_task_images` raises: the
  new task is recorded `failed` and never enqueued. -/
  | intakeImageFail (s : SysState) (ch ts : String) (q : QTask) (payload now : String)
      (hproc : s.processed.contains (ch, ts) = false)
      (hfresh : taskLookup s.tasks q.task_id = none) :
      Step s { s with processed := s.processed ++ [(ch, ts)],
                      tasks := upsertTask s.tasks q.task_id TaskStatus.failed payload now }
  /-- `_process_command_message` approval branch with the plan post
  succeeding: task `waiting_approval`, approval row `pending`. -/
  | intakeWaitApproval (s : SysState) (ch ts : String) (q : QTask) (payload now : String)
      (a : ApprovalRow)
      (hproc : s.processed.contains (ch, ts) = false)
      (hfresh : taskLookup s.tasks q.task_id = none)
      (hkey : a.task_id = q.task_id)
      (hpend : a.status = ApprovalStatus.pending) :
      Step s { s with processed := s.processed ++ [(ch, ts)],
                      tasks := upsertTask s.tasks q.task_id TaskStatus.waitingApproval payload now,
                      approvals := upsertTaskApproval s.approvals a }
  /-- `_request_reaction_approval` failing to post: the freshly recorded
  `waiting_approval` task is rewritten `failed`; no approval row exists. -/
  | intakeApprovalPostFail (s : SysState) (ch ts : String) (q : QTask)
      (payload now now2 : String)
      (hproc : s.processed.contains (ch, ts) = false)
      (hfresh : taskLookup s.tasks q.task_id = none) :
      Step s { s with processed := s.processed ++ [(ch, ts)],
                      tasks := updateTaskStatus
                        (upsertTask s.tasks q.task_id TaskStatus.waitingApproval payload now)
                        q.task_id TaskStatus.failed now2 }
  /-- `_process_command_message` immediate-enqueue branch: task `pending`,
  enqueued. -/
  | intakePending (s : SysState) (ch ts : String) (q : QTask) (payload now : String)
      (hproc : s.processed.contains (ch, ts) = false)
      (hfresh : taskLookup s.tasks q.task_id = none) :
      Step s { s with processed := s.processed ++ [(ch, ts)],
                      tasks := upsertTask s.tasks q.task_id TaskStatus.pending payload now,
                      queue := qEnqueue s.queue q }
  /-- `_process_reaction_event` resolving the approval CAS but stopping there
  (`get_task` returned nothing or the payload did not parse). -/
  | reactionResolveStop (s : SysState) (a : ApprovalRow) (rch rts : String)
      (st : ApprovalStatus) (db dr : String)
      (hmem : a ∈ s.approvals)
      (hmatch : pendingApprovalMatches rch rts a = true)
      (hdec : st ∈ [ApprovalStatus.approved, ApprovalStatus.rejected])
      (hcas : (resolveTaskApproval s.approvals a.task_id st db dr).1 = true) :
      Step s { s with approvals := (resolveTaskApproval s.approvals a.task_id st db dr).2 }
  /-- `_process_reaction_event` approve path: resolve CAS, then
  `update_task_status(task_id, PENDING)` and enqueue. -/
  | reactionApprove (s : SysState) (a : ApprovalRow) (rch rts db dr now : String)
      (q : QTask) (rec : TaskRow)
      (hmem : a ∈ s.approvals)
      (hmatch : pendingApprovalMatches rch rts a = true)
      (hcas : (resolveTaskApproval s.approvals a.task_id ApprovalStatus.approved db dr).1 = true)
      (hrec : taskLookup s.tasks a.task_id = some rec)
      (hq : q.task_id = a.task_id) :
      Step s { s with
        approvals := (resolveTaskApproval s.approvals a.task_id ApprovalStatus.approved db dr).2,
        tasks := updateTaskStatus s.tasks a.task_id TaskStatus.pending now,
        queue := qEnqueue s.queue q }
  /-- `_process_reaction_event` reject path: resolve CAS, then
  `update_task_status(task_id, CANCELED)` and report. -/
  | reactionReject (s : SysState) (a : ApprovalRow) (rch rts db dr now : String)
      (rec : TaskRow)
      (hmem : a ∈ s.approvals)
      (hmatch : pendingApprovalMatches rch rts a = true)
      (hcas : (resolveTaskApproval s.approvals a.task_id ApprovalStatus.rejected db dr).1 = true)
      (hrec : taskLookup s.tasks a.task_id = some rec) :
      Step s { s with
        approvals := (resolveTaskApproval s.approvals a.task_id ApprovalStatus.rejected db dr).2,
        tasks := updateTaskStatus s.tasks a.task_id TaskStatus.canceled now }
  /-- `_drain_queue` when the `pending → running` CAS fails: the task is
  dropped from the queue ("another process claimed it"). -/
  | drainSkip (s : SysState) (q : QTask) (rest : List QTask) (now : String)
      (hq : s.queue = q :: rest)
      (hcas : (transitionTaskStatus s.tasks q.task_id TaskStatus.pending
        TaskStatus.running now).1 = false) :
      Step s { s with
        tasks := (transitionTaskStatus s.tasks q.task_id TaskStatus.pending
          TaskStatus.running now).2,
        queue := rest }
  /-- `_drain_queue` when the lock is busy: the claimed task is set back to
  `pending` and deferred (re-enqueued). -/
  | drainLockBusy (s : SysState) (q : QTask) (rest : List QTask) (now nowL now2 : String)
      (hq : s.queue = q :: rest)
      (hcas : (transitionTaskStatus s.tasks q.task_id TaskStatus.pending
        TaskStatus.running now).1 = true)
      (hlock : (acquireExecutionLock s.locks q.lock_key q.task_id nowL).1 = false) :
      Step s { s with
        tasks := updateTaskStatus
          (transitionTaskStatus s.tasks q.task_id TaskStatus.pending TaskStatus.running now).2
          q.task_id TaskStatus.pending now2,
        locks := (acquireExecutionLock s.locks q.lock_key q.task_id nowL).2,
        queue := qEnqueue rest q }
  /-- `_drain_queue` claiming a task and acquiring its lock: dispatch to the
  executor (inline or pool); the task is now in flight. -/
  | drainDispatch (s : SysState) (q : QTask) (rest : List QTask) (now nowL : String)
      (hq : s.queue = q :: rest)
      (hcas : (transitionTaskStatus s.tasks q.task_id TaskStatus.pending
        TaskStatus.running now).1 = true)
      (hlock : (acquireExecutionLock s.locks q.lock_key q.task_id nowL).1 = true) :
      Step s { s with
        tasks := (transitionTaskStatus s.tasks q.task_id TaskStatus.pending
          TaskStatus.running now).2,
        locks := (acquireExecutionLock s.locks q.lock_key q.task_id nowL).2,
        queue := rest,
        inflight := s.inflight ++ [q] }
  /-- `_finish_task` plus the lock release in the `finally` block: the
  executor's result status is recorded, the lock released, the task no longer
  in flight. -/
  | finishTask (s : SysState) (q : QTask) (st : TaskStatus) (now : String)
      (hmem : q ∈ s.inflight)
      (hres : st ∈ execResultStatuses) :
      Step s { s with
        tasks := updateTaskStatus s.tasks q.task_id st now,
        locks := releaseExecutionLock s.locks q.lock_key q.task_id,
        inflight := s.inflight.erase q }
  /-- Process crash: the store survives, the in-memory queue and in-flight
  set are lost. -/
  | crash (s : SysState) :
      Step s { s with queue := [], inflight := [] }
  /-- `run()` startup sweep, executed when this (only) orchestrator process
  has nothing in flight. -/
  | sweep (s : SysState) (now : String)
      (hidle : s.inflight = []) :
      Step s { s with tasks := (markRunningTasksAborted s.tasks now).2 }

/-- States reachable from a fresh deployment. -/
inductive Reachable : SysState → Prop where
  | init : Reachable initState
  | step {s s2 : SysState} : Reachable s → Step s s2 → Reachable s2

/-- Inductive invariant of the orchestrator: well-formed primary keys, every
pending approval's task is `waiting_approval`, every in-flight task is
`running`, and in-flight task ids are distinct. -/
def SysInv (s : SysState) : Prop :=
  tasksWF s.tasks ∧
  (s.approvals.map (·.task_id)).Nodup ∧
  (∀ a ∈ s.approvals, a.status = ApprovalStatus.pending →
    taskStatusOf s.tasks a.task_id = some TaskStatus.waitingApproval) ∧
  (∀ q ∈ s.inflight, taskStatusOf s.tasks q.task_id = some TaskStatus.running) ∧
  (s.inflight.map (·.task_id)).Nodup

/-! ## Table lemmas for the orchestrator invariant -/

/-- `find?` by key commutes with key-preserving row rewrites. -/
theorem taskLookup_map (tbl : TasksTable) (g : TaskRow → TaskRow)
    (hg : ∀ r, (g r).task_id = r.task_id) (id : String) :
    taskLookup (tbl.map g) id = (taskLookup tbl id).map g := by
  rw [taskLookup, taskLookup, List.find?_map]
  have hfun : ((fun r : TaskRow => r.task_id == id) ∘ g) =
      (fun r : TaskRow => r.task_id == id) := by
    funext r
    simp [Function.comp, hg r]
  rw [hfun]

/-- The row found by `taskLookup` carries the looked-up key. -/
theorem taskLookup_key (tbl : TasksTable) (id : String) (r : TaskRow)
    (h : taskLookup tbl id = some r) : r.task_id = id := by
  have := List.find?_some h
  simpa using this

/-- Lookup hits in the left part of an append. -/
theorem taskLookup_append_some (tbl l2 : TasksTable) (id : String) (r : TaskRow)
    (h : taskLookup tbl id = some r) : taskLookup (tbl ++ l2) id = some r := by
  rw [taskLookup, List.find?_append]
  rw [taskLookup] at h
  simp [h]

/-- Lookup passes over the left part of an append when it misses there. -/
theorem taskLookup_append_none (tbl l2 : TasksTable) (id : String)
    (h : taskLookup tbl id = none) : taskLookup (tbl ++ l2) id = taskLookup l2 id := by
  rw [taskLookup, List.find?_append]
  rw [taskLookup] at h
  simp [h, taskLookup]

/-- On a fresh id, `upsert_task` is an insert. -/
theorem upsertTask_fresh (tbl : TasksTable) (id : String) (st : TaskStatus)
    (payload now : String) (h : taskLookup tbl id = none) :
    upsertTask tbl id st payload now = tbl ++ [⟨id, st, now, now, payload⟩] := by
  rw [upsertTask, if_neg]
  intro hany
  rw [List.any_eq_true] at hany
  obtain ⟨r, hmem, hr⟩ := hany
  rw [taskLookup, List.find?_eq_none] at h
  exact absurd hr (h r hmem)

/-- Status after an `upsert_task` on a fresh id, at a different id. -/
theorem taskStatusOf_upsert_fresh_other (tbl : TasksTable) (id id2 : String)
    (st : TaskStatus) (payload now : String) (hfresh : taskLookup tbl id2 = none)
    (r : TaskRow) (h : taskLookup tbl id = some r) :
    taskStatusOf (upsertTask tbl id2 st payload now) id = some r.status := by
  rw [upsertTask_fresh tbl id2 st payload now hfresh, taskStatusOf,
    taskLookup_append_some tbl _ id r h]
  rfl

/-- Status after an `upsert_task` on a fresh id, at that id. -/
theorem taskStatusOf_upsert_fresh_self (tbl : TasksTable) (id2 : String)
    (st : TaskStatus) (payload now : String) (hfresh : taskLookup tbl id2 = none) :
    taskStatusOf (upsertTask tbl id2 st payload now) id2 = some st := by
  rw [upsertTask_fresh tbl id2 st payload now hfresh, taskStatusOf,
    taskLookup_append_none tbl _ id2 hfresh]
  simp [taskLookup]

/-- `update_task_status` leaves other ids untouched. -/
theorem taskStatusOf_update_other (tbl : TasksTable) (id id2 : String)
    (st2 : TaskStatus) (now : String) (hne : id ≠ id2) :
    taskStatusOf (updateTaskStatus tbl id2 st2 now) id = taskStatusOf tbl id := by
  rw [taskStatusOf, updateTaskStatus,
    taskLookup_map tbl _ (fun r => by split <;> rfl) id, taskStatusOf]
  cases h : taskLookup tbl id with
  | none => rfl
  | some r =>
    have hk := taskLookup_key tbl id r h
    simp [hk, hne]

/-- `update_task_status` rewrites the status of an existing id. -/
theorem taskStatusOf_update_self (tbl : TasksTable) (id : String) (st : TaskStatus)
    (now : String) (r : TaskRow) (h : taskLookup tbl id = some r) :
    taskStatusOf (updateTaskStatus tbl id st now) id = some st := by
  rw [taskStatusOf, updateTaskStatus,
    taskLookup_map tbl _ (fun r => by split <;> rfl) id, h]
  have hk := taskLookup_key tbl id r h
  simp [hk]

/-- The status CAS leaves every row whose status differs from `fromStatus`
untouched. -/
theorem taskStatusOf_transition_preserve (tbl : TasksTable) (id2 : String)
    (f t : TaskStatus) (now : String) (id : String) (st : TaskStatus)
    (h : taskStatusOf tbl id = some st) (hne : st ≠ f) :
    taskStatusOf ((transitionTaskStatus tbl id2 f t now).2) id = some st := by
  rw [taskStatusOf, transitionTaskStatus,
    taskLookup_map tbl _ (fun r => by split <;> rfl) id]
  rw [taskStatusOf] at h
  obtain ⟨r, hr, hst⟩ := Option.map_eq_some'.mp h
  have : casMatches id2 f r = false := by
    rw [casMatches, Bool.and_eq_false_iff]
    right
    rw [beq_eq_false_iff_ne, hst]
    exact hne
  simp [hr, this, hst]

/-- The restart sweep leaves every non-`running` row untouched. -/
theorem taskStatusOf_sweep_preserve (tbl : TasksTable) (now : String) (id : String)
    (st : TaskStatus) (h : taskStatusOf tbl id = some st) (hne : st ≠ TaskStatus.running) :
    taskStatusOf ((markRunningTasksAborted tbl now).2) id = some st := by
  rw [taskStatusOf, markRunningTasksAborted,
    taskLookup_map tbl _ (fun r => by split <;> rfl) id]
  rw [taskStatusOf] at h
  obtain ⟨r, hr, hst⟩ := Option.map_eq_some'.mp h
  have : (r.status == TaskStatus.running) = false := by
    rw [beq_eq_false_iff_ne, hst]
    exact hne
  simp [hr, this, hst, hne]

/-- A successful `pending → running` claim found the task `pending`
(well-formed table). -/
theorem cas_true_from (tbl : TasksTable) (id : String) (f t : TaskStatus) (now : String)
    (hwf : tasksWF tbl)
    (h : (transitionTaskStatus tbl id f t now).1 = true) :
    taskStatusOf tbl id = some f := by
  have hpos : 0 < tbl.countP (casMatches id f) := by
    simp only [transitionTaskStatus, beq_iff_eq] at h
    omega
  rw [List.countP_pos_iff] at hpos
  obtain ⟨r, hmem, hr⟩ := hpos
  simp only [casMatches, Bool.and_eq_true, beq_iff_eq] at hr
  have hfind : taskLookup tbl id = some r := find?_key_eq tbl (·.task_id) id r hwf hmem hr.1
  rw [taskStatusOf, hfind]
  simp [hr.2]

/-- After a successful claim, the task's status is the target status
(well-formed table). -/
theorem cas_true_after (tbl : TasksTable) (id : String) (f t : TaskStatus) (now : String)
    (hwf : tasksWF tbl)
    (h : (transitionTaskStatus tbl id f t now).1 = true) :
    taskStatusOf ((transitionTaskStatus tbl id f t now).2) id = some t := by
  have hpos : 0 < tbl.countP (casMatches id f) := by
    simp only [transitionTaskStatus, beq_iff_eq] at h
    omega
  rw [List.countP_pos_iff] at hpos
  obtain ⟨r, hmem, hr⟩ := hpos
  have hr2 := hr
  simp only [casMatches, Bool.and_eq_true, beq_iff_eq] at hr2
  have hfind : taskLookup tbl id = some r := find?_key_eq tbl (·.task_id) id r hwf hmem hr2.1
  rw [taskStatusOf, transitionTaskStatus,
    taskLookup_map tbl _ (fun r => by split <;> rfl) id, hfind]
  simp [hr]

/-- Key-preserving rewrites keep the key column. -/
theorem keys_map_eq {α κ : Type} (l : List α) (g : α → α) (key : α → κ)
    (hg : ∀ r, key (g r) = key r) : (l.map g).map key = l.map key := by
  rw [List.map_map]
  exact List.map_congr_left fun r _ => hg r

/-- `tasksWF` is preserved by key-preserving rewrites. -/
theorem tasksWF_map (tbl : TasksTable) (g : TaskRow → TaskRow)
    (hg : ∀ r, (g r).task_id = r.task_id) (hwf : tasksWF tbl) :
    tasksWF (tbl.map g) := by
  rw [tasksWF, keys_map_eq tbl g _ hg]
  exact hwf

/-- `tasksWF` is preserved by inserting a fresh id. -/
theorem tasksWF_append_fresh (tbl : TasksTable) (row : TaskRow)
    (hfresh : taskLookup tbl row.task_id = none) (hwf : tasksWF tbl) :
    tasksWF (tbl ++ [row]) := by
  rw [tasksWF, List.map_append, List.nodup_append]
  refine ⟨hwf, by simp, ?_⟩
  intro k hk
  simp only [List.mem_map] at hk
  obtain ⟨r, hmem, rfl⟩ := hk
  simp only [List.map_cons, List.map_nil, List.mem_singleton]
  intro hcon
  rw [taskLookup, List.find?_eq_none] at hfresh
  exact hfresh r hmem (by simp [hcon])

/-- In a key-`Nodup` list, removing one element leaves no element with its
key. -/
theorem map_nodup_erase_key_ne {α κ : Type} [DecidableEq α] (l : List α) (f : α → κ)
    (hnd : (l.map f).Nodup) (a : α) (ha : a ∈ l) (b : α) (hb : b ∈ l.erase a) :
    f b ≠ f a := by
  have hperm : List.Perm (l.map f) ((a :: l.erase a).map f) :=
    (List.perm_cons_erase ha).map f
  have hnd2 : ((a :: l.erase a).map f).Nodup := hperm.nodup hnd
  simp only [List.map_cons, List.nodup_cons] at hnd2
  intro hcon
  exact hnd2.1 (by
    rw [List.mem_map]
    exact ⟨b, hb, hcon⟩)

/-- A row still `pending` after `resolve_task_approval` was already in the
table and carries a different task id. -/
theorem resolve_pending_mem (tbl : ApprovalsTable) (tid : String) (st : ApprovalStatus)
    (db dr : String) (hst : st ≠ ApprovalStatus.pending) (a2 : ApprovalRow)
    (h : a2 ∈ (resolveTaskApproval tbl tid st db dr).2)
    (hp : a2.status = ApprovalStatus.pending) :
    a2 ∈ tbl ∧ a2.task_id ≠ tid := by
  simp only [resolveTaskApproval, List.mem_map] at h
  obtain ⟨a1, hmem, hrw⟩ := h
  by_cases hcond : (a1.task_id == tid && a1.status == ApprovalStatus.pending) = true
  · rw [if_pos hcond] at hrw
    rw [← hrw] at hp
    exact absurd hp hst
  · rw [if_neg hcond] at hrw
    subst hrw
    simp only [Bool.and_eq_true, beq_iff_eq, not_and] at hcond
    refine ⟨hmem, ?_⟩
    intro hid
    exact absurd hp (hcond hid)

/-- Statuses at one id are unambiguous: distinct statuses mean distinct ids. -/
theorem statusOf_some_ne (tbl : TasksTable) (i1 i2 : String) (st1 st2 : TaskStatus)
    (h1 : taskStatusOf tbl i1 = some st1) (h2 : taskStatusOf tbl i2 = some st2)
    (hne : st1 ≠ st2) : i1 ≠ i2 := by
  intro hid
  subst hid
  rw [h1] at h2
  exact hne (Option.some.inj h2)

/-- An id with a status is never the fresh id. -/
theorem statusOf_ne_of_fresh (tbl : TasksTable) (id id2 : String) (st : TaskStatus)
    (hfresh : taskLookup tbl id2 = none) (h : taskStatusOf tbl id = some st) :
    id ≠ id2 := by
  intro hid
  subst hid
  rw [taskStatusOf, hfresh] at h
  cases h

/-- Any existing status survives an `upsert_task` on a fresh id. -/
theorem taskStatusOf_upsert_fresh_pres (tbl : TasksTable) (id id2 : String)
    (st : TaskStatus) (st0 : TaskStatus) (payload now : String)
    (hfresh : taskLookup tbl id2 = none)
    (hstat : taskStatusOf tbl id = some st0) :
    taskStatusOf (upsertTask tbl id2 st payload now) id = some st0 := by
  obtain ⟨r, hr, hst⟩ := Option.map_eq_some'.mp hstat
  rw [← hst]
  exact taskStatusOf_upsert_fresh_other tbl id id2 st payload now hfresh r hr

/-- A failed CAS leaves the table unchanged (well-formed table). -/
theorem cas_false_table (tbl : TasksTable) (id : String) (f t : TaskStatus) (now : String)
    (hwf : tasksWF tbl)
    (h : (transitionTaskStatus tbl id f t now).1 = false) :
    (transitionTaskStatus tbl id f t now).2 = tbl := by
  have hle : tbl.countP (casMatches id f) ≤ 1 := by
    calc tbl.countP (casMatches id f)
        ≤ tbl.countP (fun r => r.task_id == id) := by
          apply List.countP_mono_left
          intro r _ hr
          simp only [casMatches, Bool.and_eq_true] at hr
          exact hr.1
      _ ≤ 1 := countP_key_le_one tbl (·.task_id) id hwf
  have hzero : tbl.countP (casMatches id f) = 0 := by
    have h2 : ¬(tbl.countP (casMatches id f) = 1) := by
      intro hc
      simp [transitionTaskStatus, hc] at h
    omega
  simp only [transitionTaskStatus]
  apply map_ite_eq_self
  intro a ha
  rw [List.countP_eq_zero] at hzero
  simpa using hzero a ha

/-- `upsert_task_approval` produces either the new row or an old one. -/
theorem mem_upsertTaskApproval (tbl : ApprovalsTable) (row a2 : ApprovalRow)
    (h : a2 ∈ upsertTaskApproval tbl row) : a2 = row ∨ a2 ∈ tbl := by
  rw [upsertTaskApproval] at h
  split at h
  · rw [List.mem_map] at h
    obtain ⟨a1, h1, hrw⟩ := h
    by_cases hc : (a1.task_id == row.task_id) = true
    · rw [if_pos hc] at hrw
      exact Or.inl hrw.symm
    · rw [if_neg hc] at hrw
      exact Or.inr (hrw ▸ h1)
  · rw [List.mem_append] at h
    rcases h with h | h
    · exact Or.inr h
    · exact Or.inl (List.mem_singleton.mp h)

/-- `upsert_task_approval` keeps the primary key unique. -/
theorem approvalsNodup_upsert (tbl : ApprovalsTable) (row : ApprovalRow)
    (h : (tbl.map (·.task_id)).Nodup) :
    ((upsertTaskApproval tbl row).map (·.task_id)).Nodup := by
  rw [upsertTaskApproval]
  split
  · rw [keys_map_eq tbl _ (·.task_id) (fun a => by
      dsimp only
      split
      · rename_i hc
        exact (beq_iff_eq.mp hc).symm
      · rfl)]
    exact h
  · rename_i hany
    rw [List.map_append, List.nodup_append]
    refine ⟨h, by simp, ?_⟩
    intro k hk
    simp only [List.mem_map] at hk
    obtain ⟨a, hmem, rfl⟩ := hk
    simp only [List.map_cons, List.map_nil, List.mem_singleton]
    intro hcon
    rw [List.any_eq_true] at hany
    exact hany ⟨a, hmem, by simp [hcon]⟩

/-- `resolve_task_approval` keeps the primary key unique. -/
theorem approvalsNodup_resolve (tbl : ApprovalsTable) (tid : String)
    (st : ApprovalStatus) (db dr : String) (h : (tbl.map (·.task_id)).Nodup) :
    (((resolveTaskApproval tbl tid st db dr).2).map (·.task_id)).Nodup := by
  rw [resolveTaskApproval]
  rw [keys_map_eq tbl _ (·.task_id) (fun a => by dsimp only; split <;> rfl)]
  exact h

/-- The reaction lookup predicate only matches pending approvals. -/
theorem pendingMatches_status (rch rts : String) (a : ApprovalRow)
    (h : pendingApprovalMatches rch rts a = true) : a.status = ApprovalStatus.pending := by
  simp only [pendingApprovalMatches, Bool.and_eq_true, beq_iff_eq] at h
  exact h.1.2

/-- The orchestrator invariant is preserved by every step. -/
theorem sysInv_preserved (s s2 : SysState) (hinv : SysInv s) (hstep : Step s s2) :
    SysInv s2 := by
  obtain ⟨hwf, hawf, hpend, hfly, hflynd⟩ := hinv
  cases hstep with
  | intakeIgnore ch ts hproc =>
    exact ⟨hwf, hawf, hpend, hfly, hflynd⟩
  | intakeImageFail ch ts q payload now hproc hfresh =>
    refine ⟨?_, hawf, ?_, ?_, hflynd⟩
    · rw [upsertTask_fresh s.tasks q.task_id _ payload now hfresh]
      exact tasksWF_append_fresh s.tasks _ hfresh hwf
    · intro a ha hap
      exact taskStatusOf_upsert_fresh_pres s.tasks a.task_id q.task_id _ _ payload now
        hfresh (hpend a ha hap)
    · intro q2 hq2
      exact taskStatusOf_upsert_fresh_pres s.tasks q2.task_id q.task_id _ _ payload now
        hfresh (hfly q2 hq2)
  | intakeWaitApproval ch ts q payload now a hproc hfresh hkey hpendA =>
    refine ⟨?_, approvalsNodup_upsert s.approvals a hawf, ?_, ?_, hflynd⟩
    · rw [upsertTask_fresh s.tasks q.task_id _ payload now hfresh]
      exact tasksWF_append_fresh s.tasks _ hfresh hwf
    · intro a2 ha2 hap2
      rcases mem_upsertTaskApproval s.approvals a a2 ha2 with rfl | hold
      · rw [hkey]
        exact taskStatusOf_upsert_fresh_self s.tasks q.task_id _ payload now hfresh
      · exact taskStatusOf_upsert_fresh_pres s.tasks a2.task_id q.task_id _ _ payload now
          hfresh (hpend a2 hold hap2)
    · intro q2 hq2
      exact taskStatusOf_upsert_fresh_pres s.tasks q2.task_id q.task_id _ _ payload now
        hfresh (hfly q2 hq2)
  | intakeApprovalPostFail ch ts q payload now now2 hproc hfresh =>
    refine ⟨?_, hawf, ?_, ?_, hflynd⟩
    · apply tasksWF_map _ _ (fun r => by first | (dsimp only; split <;> rfl) | (split <;> rfl))
      rw [upsertTask_fresh s.tasks q.task_id _ payload now hfresh]
      exact tasksWF_append_fresh s.tasks _ hfresh hwf
    · intro a ha hap
      have hst := hpend a ha hap
      have hne := statusOf_ne_of_fresh s.tasks a.task_id q.task_id _ hfresh hst
      rw [taskStatusOf_update_other _ _ _ _ _ hne]
      exact taskStatusOf_upsert_fresh_pres s.tasks a.task_id q.task_id _ _ payload now
        hfresh hst
    · intro q2 hq2
      have hst := hfly q2 hq2
      have hne := statusOf_ne_of_fresh s.tasks q2.task_id q.task_id _ hfresh hst
      rw [taskStatusOf_update_other _ _ _ _ _ hne]
      exact taskStatusOf_upsert_fresh_pres s.tasks q2.task_id q.task_id _ _ payload now
        hfresh hst
  | intakePending ch ts q payload now hproc hfresh =>
    refine ⟨?_, hawf, ?_, ?_, hflynd⟩
    · rw [upsertTask_fresh s.tasks q.task_id _ payload now hfresh]
      exact tasksWF_append_fresh s.tasks _ hfresh hwf
    · intro a ha hap
      exact taskStatusOf_upsert_fresh_pres s.tasks a.task_id q.task_id _ _ payload now
        hfresh (hpend a ha hap)
    · intro q2 hq2
      exact taskStatusOf_upsert_fresh_pres s.tasks q2.task_id q.task_id _ _ payload now
        hfresh (hfly q2 hq2)
  | reactionResolveStop a rch rts st db dr hmem hmatch hdec hcas =>
    refine ⟨hwf, approvalsNodup_resolve s.approvals a.task_id st db dr hawf, ?_, hfly, hflynd⟩
    intro a2 ha2 hap2
    have hstne : st ≠ ApprovalStatus.pending := by
      intro hcon
      subst hcon
      exact absurd hdec (by decide)
    have hin := resolve_pending_mem s.approvals a.task_id st db dr hstne a2 ha2 hap2
    exact hpend a2 hin.1 hap2
  | reactionApprove a rch rts db dr now q rec hmem hmatch hcas hrec hq =>
    refine ⟨?_, approvalsNodup_resolve s.approvals a.task_id _ db dr hawf, ?_, ?_, hflynd⟩
    · exact tasksWF_map _ _ (fun r => by first | (dsimp only; split <;> rfl) | (split <;> rfl)) hwf
    · intro a2 ha2 hap2
      have hin := resolve_pending_mem s.approvals a.task_id _ db dr
        (by intro hcon; cases hcon) a2 ha2 hap2
      rw [taskStatusOf_update_other _ _ _ _ _ hin.2]
      exact hpend a2 hin.1 hap2
    · intro q2 hq2
      have hst := hfly q2 hq2
      have hwait := hpend a hmem (pendingMatches_status rch rts a hmatch)
      have hne := statusOf_some_ne s.tasks q2.task_id a.task_id _ _ hst hwait
        (by intro hcon; cases hcon)
      rw [taskStatusOf_update_other _ _ _ _ _ hne]
      exact hst
  | reactionReject a rch rts db dr now rec hmem hmatch hcas hrec =>
    refine ⟨?_, approvalsNodup_resolve s.approvals a.task_id _ db dr hawf, ?_, ?_, hflynd⟩
    · exact tasksWF_map _ _ (fun r => by first | (dsimp only; split <;> rfl) | (split <;> rfl)) hwf
    · intro a2 ha2 hap2
      have hin := resolve_pending_mem s.approvals a.task_id _ db dr
        (by intro hcon; cases hcon) a2 ha2 hap2
      rw [taskStatusOf_update_other _ _ _ _ _ hin.2]
      exact hpend a2 hin.1 hap2
    · intro q2 hq2
      have hst := hfly q2 hq2
      have hwait := hpend a hmem (pendingMatches_status rch rts a hmatch)
      have hne := statusOf_some_ne s.tasks q2.task_id a.task_id _ _ hst hwait
        (by intro hcon; cases hcon)
      rw [taskStatusOf_update_other _ _ _ _ _ hne]
      exact hst
  | drainSkip q rest now hq hcas =>
    rw [cas_false_table s.tasks q.task_id _ _ now hwf hcas]
    exact ⟨hwf, hawf, hpend, hfly, hflynd⟩
  | drainLockBusy q rest now nowL now2 hq hcas hlock =>
    have hfrom := cas_true_from s.tasks q.task_id _ _ now hwf hcas
    refine ⟨?_, hawf, ?_, ?_, hflynd⟩
    · apply tasksWF_map _ _ (fun r => by first | (dsimp only; split <;> rfl) | (split <;> rfl))
      exact tasksWF_map _ _ (fun r => by first | (dsimp only; split <;> rfl) | (split <;> rfl)) hwf
    · intro a ha hap
      have hst := hpend a ha hap
      have hne := statusOf_some_ne s.tasks a.task_id q.task_id _ _ hst hfrom
        (by intro hcon; cases hcon)
      rw [taskStatusOf_update_other _ _ _ _ _ hne]
      exact taskStatusOf_transition_preserve s.tasks q.task_id _ _ now a.task_id _ hst
        (by intro hcon; cases hcon)
    · intro q2 hq2
      have hst := hfly q2 hq2
      have hne := statusOf_some_ne s.tasks q2.task_id q.task_id _ _ hst hfrom
        (by intro hcon; cases hcon)
      rw [taskStatusOf_update_other _ _ _ _ _ hne]
      exact taskStatusOf_transition_preserve s.tasks q.task_id _ _ now q2.task_id _ hst
        (by intro hcon; cases hcon)
  | drainDispatch q rest now nowL hq hcas hlock =>
    have hfrom := cas_true_from s.tasks q.task_id _ _ now hwf hcas
    refine ⟨?_, hawf, ?_, ?_, ?_⟩
    · exact tasksWF_map _ _ (fun r => by first | (dsimp only; split <;> rfl) | (split <;> rfl)) hwf
    · intro a ha hap
      exact taskStatusOf_transition_preserve s.tasks q.task_id _ _ now a.task_id _
        (hpend a ha hap) (by intro hcon; cases hcon)
    · intro q2 hq2
      rcases List.mem_append.mp hq2 with hold | hnew
      · exact taskStatusOf_transition_preserve s.tasks q.task_id _ _ now q2.task_id _
          (hfly q2 hold) (by intro hcon; cases hcon)
      · rcases List.mem_singleton.mp hnew with rfl
        exact cas_true_after s.tasks _ _ _ now hwf hcas
    · rw [List.map_append, List.nodup_append]
      refine ⟨hflynd, by simp, ?_⟩
      intro k hk
      simp only [List.mem_map] at hk
      obtain ⟨q2, hmem2, rfl⟩ := hk
      simp only [List.map_cons, List.map_nil, List.mem_singleton]
      intro hcon
      have hst := hfly q2 hmem2
      have hne := statusOf_some_ne s.tasks q2.task_id q.task_id _ _ hst hfrom
        (by intro hcon2; cases hcon2)
      exact hne hcon
  | finishTask q st now hmem hres =>
    refine ⟨?_, hawf, ?_, ?_, ?_⟩
    · exact tasksWF_map _ _ (fun r => by first | (dsimp only; split <;> rfl) | (split <;> rfl)) hwf
    · intro a ha hap
      have hst := hpend a ha hap
      have hrun := hfly q hmem
      have hne := statusOf_some_ne s.tasks a.task_id q.task_id _ _ hst hrun
        (by intro hcon; cases hcon)
      rw [taskStatusOf_update_other _ _ _ _ _ hne]
      exact hst
    · intro q2 hq2
      have hq2mem := List.mem_of_mem_erase hq2
      have hst := hfly q2 hq2mem
      have hne := map_nodup_erase_key_ne s.inflight (·.task_id) hflynd q hmem q2 hq2
      rw [taskStatusOf_update_other _ _ _ _ _ hne]
      exact hst
    · exact List.Nodup.sublist (List.Sublist.map _ (List.erase_sublist q s.inflight)) hflynd
  | crash =>
    refine ⟨hwf, hawf, hpend, ?_, ?_⟩
    · intro q hq
      simp at hq
    · simp
  | sweep now hidle =>
    refine ⟨?_, hawf, ?_, ?_, hflynd⟩
    · exact tasksWF_map _ _ (fun r => by first | (dsimp only; split <;> rfl) | (split <;> rfl)) hwf
    · intro a ha hap
      exact taskStatusOf_sweep_preserve s.tasks now a.task_id _ (hpend a ha hap)
        (by intro hcon; cases hcon)
    · intro q2 hq2
      rw [hidle] at hq2
      cases hq2

/-- Terminal statuses are none of the mutable ones. -/
theorem isTerminal_ne (st : TaskStatus) (h : st.isTerminal = true) :
    st ≠ TaskStatus.pending ∧ st ≠ TaskStatus.running ∧ st ≠ TaskStatus.waitingApproval := by
  cases st <;> revert h <;> decide

/-- Every reachable orchestrator state satisfies the invariant. -/
theorem reachable_sysInv (s : SysState) (h : Reachable s) : SysInv s := by
  induction h with
  | init =>
    refine ⟨?_, ?_, ?_, ?_, ?_⟩ <;> simp [initState, tasksWF]
  | step hr hstep ih => exact sysInv_preserved _ _ ih hstep

/-- Under the invariant, one step never moves a task out of a terminal
status. -/
theorem terminal_frozen_step (s s2 : SysState) (hinv : SysInv s) (hstep : Step s s2)
    (id : String) (st : TaskStatus) (hst : taskStatusOf s.tasks id = some st)
    (hterm : st.isTerminal = true) :
    taskStatusOf s2.tasks id = some st := by
  obtain ⟨hnp, hnr, hnw⟩ := isTerminal_ne st hterm
  obtain ⟨hwf, hawf, hpend, hfly, hflynd⟩ := hinv
  cases hstep with
  | intakeIgnore ch ts hproc => exact hst
  | intakeImageFail ch ts q payload now hproc hfresh =>
    exact taskStatusOf_upsert_fresh_pres s.tasks id q.task_id _ _ payload now hfresh hst
  | intakeWaitApproval ch ts q payload now a hproc hfresh hkey hpendA =>
    exact taskStatusOf_upsert_fresh_pres s.tasks id q.task_id _ _ payload now hfresh hst
  | intakeApprovalPostFail ch ts q payload now now2 hproc hfresh =>
    have hne := statusOf_ne_of_fresh s.tasks id q.task_id _ hfresh hst
    rw [taskStatusOf_update_other _ _ _ _ _ hne]
    exact taskStatusOf_upsert_fresh_pres s.tasks id q.task_id _ _ payload now hfresh hst
  | intakePending ch ts q payload now hproc hfresh =>
    exact taskStatusOf_upsert_fresh_pres s.tasks id q.task_id _ _ payload now hfresh hst
  | reactionResolveStop a rch rts st2 db dr hmem hmatch hdec hcas => exact hst
  | reactionApprove a rch rts db dr now q rec hmem hmatch hcas hrec hq =>
    have hwait := hpend a hmem (pendingMatches_status rch rts a hmatch)
    have hne := statusOf_some_ne s.tasks id a.task_id _ _ hst hwait hnw
    rw [taskStatusOf_update_other _ _ _ _ _ hne]
    exact hst
  | reactionReject a rch rts db dr now rec hmem hmatch hcas hrec =>
    have hwait := hpend a hmem (pendingMatches_status rch rts a hmatch)
    have hne := statusOf_some_ne s.tasks id a.task_id _ _ hst hwait hnw
    rw [taskStatusOf_update_other _ _ _ _ _ hne]
    exact hst
  | drainSkip q rest now hq hcas =>
    rw [cas_false_table s.tasks q.task_id _ _ now hwf hcas]
    exact hst
  | drainLockBusy q rest now nowL now2 hq hcas hlock =>
    have hfrom := cas_true_from s.tasks q.task_id _ _ now hwf hcas
    have hne := statusOf_some_ne s.tasks id q.task_id _ _ hst hfrom hnp
    rw [taskStatusOf_update_other _ _ _ _ _ hne]
    exact taskStatusOf_transition_preserve s.tasks q.task_id _ _ now id st hst hnp
  | drainDispatch q rest now nowL hq hcas hlock =>
    exact taskStatusOf_transition_preserve s.tasks q.task_id _ _ now id st hst hnp
  | finishTask q st2 now hmem hres =>
    have hrun := hfly q hmem
    have hne := statusOf_some_ne s.tasks id q.task_id _ _ hst hrun hnr
    rw [taskStatusOf_update_other _ _ _ _ _ hne]
    exact hst
  | crash => exact hst
  | sweep now hidle =>
    exact taskStatusOf_sweep_preserve s.tasks now id st hst hnr

/-- C3. A task never transitions out of a terminal state: in every reachable
orchestrator state, a task whose status is terminal (`succeeded`, `failed`,
`canceled`, `aborted_on_restart`) keeps exactly that status across every
further system step — including the `update_task_status` calls on the
approval-resolution path, whose resolve CAS only fires while the task is
still `waiting_approval`. -/
theorem terminalStatusNeverChanges (s s2 : SysState) (hr : Reachable s) (hstep : Step s s2)
    (id : String) (st : TaskStatus)
    (hst : taskStatusOf s.tasks id = some st) (hterm : st.isTerminal = true) :
    taskStatusOf s2.tasks id = some st :=
  terminal_frozen_step s s2 (reachable_sysInv s hr) hstep id st hst hterm

/-- Demo queue entry for the witness trace. -/
def demoQ1 : QTask := ⟨"t1", "global"⟩

/-- Witness state 1: task `t1` recorded pending and enqueued. -/
def demoS1 : SysState :=
  { initState with
    processed := initState.processed ++ [("C1", "1.1")],
    tasks := upsertTask initState.tasks "t1" TaskStatus.pending "p" "n1",
    queue := qEnqueue initState.queue demoQ1 }

/-- Witness state 2: `t1` claimed and dispatched under its lock. -/
def demoS2 : SysState :=
  { demoS1 with
    tasks := (transitionTaskStatus demoS1.tasks "t1" TaskStatus.pending
      TaskStatus.running "n2").2,
    locks := (acquireExecutionLock demoS1.locks "global" "t1" "n2").2,
    queue := [],
    inflight := demoS1.inflight ++ [demoQ1] }

/-- Witness state 3: `t1` finished `failed` (a terminal status). -/
def demoS3 : SysState :=
  { demoS2 with
    tasks := updateTaskStatus demoS2.tasks "t1" TaskStatus.failed "n3",
    locks := releaseExecutionLock demoS2.locks "global" "t1",
    inflight := demoS2.inflight.erase demoQ1 }

/-- Witness for `terminalStatusNeverChanges`: after the concrete trace
intake → dispatch → finish(`failed`), a crash step keeps `t1` at `failed`. -/
theorem terminalStatusNeverChanges_witness :
    taskStatusOf ({ demoS3 with queue := [], inflight := [] } : SysState).tasks "t1" =
      some TaskStatus.failed :=
  terminalStatusNeverChanges demoS3 { demoS3 with queue := [], inflight := [] }
    (Reachable.step
      (Reachable.step
        (Reachable.step Reachable.init
          (Step.intakePending initState "C1" "1.1" demoQ1 "p" "n1" (by decide) (by decide)))
        (Step.drainDispatch demoS1 demoQ1 [] "n2" "n2" (by decide) (by decide) (by decide)))
      (Step.finishTask demoS2 demoQ1 TaskStatus.failed "n3" (by decide) (by decide)))
    (Step.crash demoS3)
    "t1" TaskStatus.failed (by decide) (by decide)
